import Mathlib

/-!
# ubuntu-app-launch: unit registry, environment assembly and Exec expansion

A shallow embedding of the parts of `libubuntu-app-launch/jobs-systemd.cpp` and
`desktop-exec.c` that the unit-name grammar, the unit map, the launch
environment and the Exec field codes depend on, followed by the properties
established about them.

C++ `std::string` and C `gchar *` values are lists of characters (`Str`);
a `NULL` pointer is `none`.
-/

namespace UbuntuAppLaunch

/-- Byte strings of the program (`std::string`, `gchar *`). -/
abbrev Str := List Char

/-! ## Unit names (`jobs-systemd.cpp`, lines 865-882) -/

/-- The key of the unit map, `SystemD::UnitInfo`; the field order is the one of
the brace initialisers `UnitInfo{appIdStr, job, instance}`. -/
structure UnitInfo where
  appid : Str
  job : Str
  inst : Str
deriving DecidableEq, Repr

/-- The atom `.` of an ECMAScript `std::regex` over `char`: every character
except the line terminators `\n` and `\r`. -/
def dotMatches (c : Char) : Bool := c != '\n' && c != '\r'

/-- The class `[0-9]`. -/
def digitMatches (c : Char) : Bool := '0' ≤ c && c ≤ '9'

/-- A literal piece of the pattern: the rest of the input after `lit`, when the
input starts with it. -/
def matchLit (lit s : Str) : Option Str :=
  if lit.isPrefixOf s then some (s.drop lit.length) else none

/-- A greedy starred character class `p*` followed by the continuation `k`:
the backtracking matcher first takes one more character and only when the rest
of the pattern then fails does it hand what it has consumed (`acc`) to the
continuation. -/
def matchStar {α : Type} (p : Char → Bool) (k : Str → Str → Option α) (acc : Str) : Str → Option α
  | [] => k acc []
  | c :: cs =>
    if p c then
      match matchStar p k (acc ++ [c]) cs with
      | some r => some r
      | none => k acc (c :: cs)
    else k acc (c :: cs)

/-- The end of the pattern `unitNaming`: `\.service$`. -/
def matchEnd (rest : Str) : Bool := rest == ".service".toList

/-- The pattern from the third capture on, `([0-9]*)\.service$`, with the first
two captures `m1` and `m2` already made. -/
def matchInst (m1 m2 : Str) (r4 : Str) : Option UnitInfo :=
  matchStar digitMatches
    (fun m3 r5 => if matchEnd r5 then some { appid := m2, job := m1, inst := m3 } else none) [] r4

/-- The pattern from the second capture on, `(.*)\-\-([0-9]*)\.service$`. -/
def matchAppid (m1 : Str) (r2 : Str) : Option UnitInfo :=
  matchStar dotMatches
    (fun m2 r3 =>
      match matchLit "--".toList r3 with
      | none => none
      | some r4 => matchInst m1 m2 r4) [] r2

/-- The pattern from the first capture on, `(.*)\-\-(.*)\-\-([0-9]*)\.service$`. -/
def matchJob (r0 : Str) : Option UnitInfo :=
  matchStar dotMatches
    (fun m1 r1 =>
      match matchLit "--".toList r1 with
      | none => none
      | some r2 => matchAppid m1 r2) [] r0

/-- The function `SystemD::parseUnit` with the pattern
`^ubuntu\-app\-launch\-\-(.*)\-\-(.*)\-\-([0-9]*)\.service$` of `unitNaming`
matched by `std::regex_match`: `none` is the thrown `runtime_error`; the result
is `{match[2], match[1], match[3]}`, so the first capture is the job and the
second the appid. -/
def parseUnit (unit : Str) : Option UnitInfo :=
  match matchLit "ubuntu-app-launch--".toList unit with
  | none => none
  | some r0 => matchJob r0

/-- The function `SystemD::unitName`. -/
def unitName (info : UnitInfo) : Str :=
  "ubuntu-app-launch--".toList ++ info.job ++ "--".toList ++ info.appid ++ "--".toList ++ info.inst
    ++ ".service".toList

/-! ## Environment lists (`jobs-systemd.cpp`, lines 372-457 and 512-544) -/

/-- The environment under construction, `std::list<std::pair<std::string, std::string>>`. -/
abbrev Env := List (Str × Str)

/-- The function `SystemD::findEnv`: the value of the first entry named `value`, the empty
string when there is none. -/
def findEnv (value : Str) (env : Env) : Str :=
  match env.find? (fun entry => entry.1 == value) with
  | some entry => entry.2
  | none => []

/-- The function `SystemD::removeEnv`: `std::find_if` followed by `erase` of the entry found. -/
def removeEnv (value : Str) (env : Env) : Env :=
  env.eraseP (fun entry => entry.1 == value)

/-- The function `SystemD::parseExec`. The tokenizer `desktop_exec_parse` is declared in
`utils.h`, which is not part of the sources, and is a parameter; it returns a
`GArray` of `gchar *` whose null elements are skipped. -/
def parseExec (desktop_exec_parse : Str → Str → List (Option Str)) (env : Env) : List Str :=
  let exec := findEnv "APP_EXEC".toList env
  if exec.isEmpty then []
  else
    let uris := findEnv "APP_URIS".toList env
    let execarray := desktop_exec_parse exec uris
    let retval := execarray.filterMap id
    let appexecpolicy := findEnv "APP_EXEC_POLICY".toList env
    if !appexecpolicy.isEmpty && appexecpolicy != "unconfined".toList then
      "aa-exec".toList :: ("-p".toList :: (appexecpolicy :: retval))
    else retval

/-- The C library `getenv` over the process environment `environ`, a list of
`NAME=value` strings: the value of the first entry for `name`. -/
def getenv (environ : List Str) (name : Str) : Option Str :=
  match environ.find? (fun e => (name ++ ['=']).isPrefixOf e) with
  | some e => some (e.drop (name.length + 1))
  | none => none

/-- The function `SystemD::copyEnv`. -/
def copyEnv (environ : List Str) (envname : Str) (env : Env) : Env :=
  if !(findEnv envname env).isEmpty then env
  else
    match getenv environ envname with
    | some value => env ++ [(envname, value)]
    | none => env

/-- The loop of `SystemD::copyEnvByPrefix` over the entries of `environ` still
to visit. `envname.erase(envname.find('='))` throws `std::out_of_range` on an
entry without `=`; that is `none`. -/
def copyEnvByPrefixLoop (environ : List Str) (pfx : Str) : List Str → Env → Option Env
  | [], env => some env
  | e :: rest, env =>
    if pfx.isPrefixOf e then
      if e.contains '=' then
        copyEnvByPrefixLoop environ pfx rest (copyEnv environ (e.takeWhile (fun c => c != '=')) env)
      else none
    else copyEnvByPrefixLoop environ pfx rest env

/-- The function `SystemD::copyEnvByPrefix`. -/
def copyEnvByPrefix (environ : List Str) (pfx : Str) (env : Env) : Option Env :=
  copyEnvByPrefixLoop environ pfx environ env

/-! ## Launch (`jobs-systemd.cpp`, lines 546-796) -/

/-- What `launch` reads of its `AppID` argument, whose class is declared in
`appid.h`, not part of the sources: `appId.empty()`, `std::string(appId)` and
`appId.package.value().empty()`. -/
structure AppID where
  empty : Bool
  str : Str
  packageEmpty : Bool

/-- The two values of `launchMode`. -/
inductive LaunchMode where
  | STANDARD
  | TEST
deriving DecidableEq

/-- What `launch` reads of the process and of the libraries it calls. -/
structure World where
  /-- The process environment `environ`. -/
  environ : List Str
  /-- The result of `getpid()`. -/
  pid : Nat
  /-- The result of `getAllApplicationJobs()`. -/
  appJobs : List Str
  /-- The result of `Registry::Impl::isWatchingAppStarting()`. -/
  watchingAppStarting : Bool
  /-- The result of `g_get_user_runtime_dir()`. -/
  runtimeDir : Str
  /-- The function `g_shell_quote`, `none` for a null result. -/
  g_shell_quote : Str → Option Str
  /-- The function `g_find_program_in_path`, `none` for a null result. -/
  g_find_program_in_path : Str → Option Str
  /-- The tokenizer `desktop_exec_parse`. -/
  desktop_exec_parse : Str → Str → List (Option Str)

/-- The arguments of `launch`; `baseEnv` is the list that the call `getenv()`
of the argument function returns. -/
structure LaunchArgs where
  appId : AppID
  job : Str
  instance_ : Str
  urls : List Str
  mode : LaunchMode
  baseEnv : Env

/-- The value of a unit property in the `a(sv)` array of the request. -/
inductive PropValue where
  | execStart (path : Str) (argv : List Str) (ignoreFailure : Bool)
  | boolean (b : Bool)
  | string (s : Str)
  | strings (l : List Str)
deriving DecidableEq

/-- The parameters `(ssa(sv)a(sa(sv)))` of `StartTransientUnit`. -/
structure StartTransientUnit where
  name : Str
  mode : Str
  properties : List (Str × PropValue)
  aux : List (Str × List (Str × PropValue))
deriving DecidableEq

/-- What `launch` does that is visible outside it, in program order. -/
inductive Action where
  | handshakeStart (appid inst : Str) (timeout : Int)
  | handshakeWait
  | startTransientUnit (request : StartTransientUnit)
  | outOfRange
deriving DecidableEq

/-- The fold function `accumfunc` of `launch` that joins the quoted URLs. -/
def accumfunc (g_shell_quote : Str → Option Str) (prev : Str) (thisurl : Str) : Str :=
  match g_shell_quote thisurl with
  | some escaped => if prev.isEmpty then escaped else prev ++ " ".toList ++ escaped
  | none => prev

/-- The rewrite of `QT_QPA_PLATFORM` in `launch` (lines 610-614). -/
def rewriteQtPlatform (env : Env) : Env :=
  if findEnv "QT_QPA_PLATFORM".toList env == "mirserver".toList
      || findEnv "QT_QPA_PLATFORM".toList env == "ubuntumirclient".toList then
    removeEnv "QT_QPA_PLATFORM".toList env ++ [("QT_QPA_PLATFORM".toList, "wayland".toList)]
  else env

/-- The environment that `launch` builds (lines 588-655), `none` when
`copyEnvByPrefix` throws. -/
def launchEnv (w : World) (a : LaunchArgs) : Option Env := do
  let env := a.baseEnv
  let env := env ++ [("APP_ID".toList, a.appId.str)]
  let env := env ++ [("APP_LAUNCHER_PID".toList, (Nat.repr w.pid).toList)]
  let env := copyEnv w.environ "DISPLAY".toList env
  let env ← copyEnvByPrefix w.environ "DBUS_".toList env
  let env ← copyEnvByPrefix w.environ "MIR_".toList env
  let env ← copyEnvByPrefix w.environ "UBUNTU_APP_LAUNCH_".toList env
  let env ←
    if (getenv w.environ "SNAP".toList).isNone && a.appId.packageEmpty then do
      let env ← copyEnvByPrefix w.environ "QT_".toList env
      let env ← copyEnvByPrefix w.environ "XDG_".toList env
      pure (rewriteQtPlatform env)
    else pure env
  let env :=
    if (findEnv "MIR_SOCKET".toList env).isEmpty then
      env ++ [("MIR_SOCKET".toList, w.runtimeDir ++ "/mir_socket".toList)]
    else env
  let env :=
    if !a.urls.isEmpty then
      env ++ [("APP_URIS".toList, a.urls.foldl (accumfunc w.g_shell_quote) [])]
    else env
  let env :=
    if a.mode = LaunchMode.TEST then env ++ [("QT_LOAD_TESTABILITY".toList, "1".toList)] else env
  pure env

/-- The names removed before the environment is shipped (lines 733-735). -/
def rmenvs : List Str :=
  ["APP_DIR".toList, "APP_URIS".toList, "APP_EXEC".toList, "APP_EXEC_POLICY".toList,
   "APP_LAUNCHER_PID".toList, "INSTANCE_ID".toList, "MIR_SERVER_PLATFORM_PATH".toList,
   "MIR_SERVER_PROMPT_FILE".toList, "MIR_SERVER_HOST_SOCKET".toList,
   "UBUNTU_APP_LAUNCH_OOM_HELPER".toList, "UBUNTU_APP_LAUNCH_LEGACY_ROOT".toList]

/-- The clean-up loop of `launch` (lines 732-738): one `removeEnv` per name. -/
def cleanEnv (env : Env) : Env :=
  rmenvs.foldl (fun env rmenv => removeEnv rmenv env) env

/-- The entries of the cleaned environment that the loop of lines 747-755 puts
in the request: those with a non-empty name and a non-empty value. -/
def shippedEntries (env : Env) : Env :=
  env.filter (fun envvar => !envvar.1.isEmpty && !envvar.2.isEmpty)

/-- The `Environment` property: each shipped entry printed with `"%s=%s"`. -/
def environmentProperty (env : Env) : List Str :=
  (shippedEntries env).map (fun envvar => envvar.1 ++ "=".toList ++ envvar.2)

/-- The `ExecStart` property (lines 668-702), present when there are commands. -/
def execStartProperty (g_find_program_in_path : Str → Option Str) :
    List Str → List (Str × PropValue)
  | [] => []
  | cmd0 :: args =>
    let pathexec :=
      match g_find_program_in_path cmd0 with
      | some found => found
      | none => cmd0
    [("ExecStart".toList, PropValue.execStart pathexec (cmd0 :: args) false)]

/-- The request that `launch` builds from the assembled environment (lines
657-765). -/
def buildRequest (w : World) (a : LaunchArgs) (env : Env) : StartTransientUnit :=
  let unitname := unitName { appid := a.appId.str, job := a.job, inst := a.instance_ }
  let commands := parseExec w.desktop_exec_parse env
  let workingDirectory :=
    if !(findEnv "APP_DIR".toList env).isEmpty then
      [("WorkingDirectory".toList, PropValue.string (findEnv "APP_DIR".toList env))]
    else []
  { name := unitname
    mode := "replace".toList
    properties :=
      execStartProperty w.g_find_program_in_path commands
        ++ [("RemainAfterExit".toList, PropValue.boolean false)]
        ++ [("Type".toList, PropValue.string "oneshot".toList)]
        ++ workingDirectory
        ++ [("Environment".toList, PropValue.strings (environmentProperty (cleanEnv env)))]
    aux := [] }

/-- The function `SystemD::launch`: nothing is done for an empty `AppID`; otherwise the
handshake is started for an application job, the request is built, the
handshake is waited for and the request is sent. -/
def launch (w : World) (a : LaunchArgs) : List Action :=
  if a.appId.empty then []
  else
    let isApplication := w.appJobs.contains a.job
    let timeout : Int := if w.watchingAppStarting then 0 else 1
    let started :=
      if isApplication then [Action.handshakeStart a.appId.str a.instance_ timeout] else []
    match launchEnv w a with
    | none => started ++ [Action.outOfRange]
    | some env =>
      started ++ [Action.handshakeWait, Action.startTransientUnit (buildRequest w a env)]

/-! ## The unit map and the signal handlers (`jobs-systemd.cpp`, lines 206-308, 884-969, 1186-1249) -/

/-- The structure `SystemD::UnitData`: the job path and the unit path, empty until `GetUnit`
has answered. -/
structure UnitData where
  jobpath : Str
  unitpath : Str
deriving DecidableEq

/-- The map `unitPaths`, a `std::map<UnitInfo, std::shared_ptr<UnitData>>`, as
the list of its entries in iteration order; a null pointer is `none`. The keys
of a `std::map` are pairwise distinct (`UnitMapOk`). -/
abbrev UnitMap := List (UnitInfo × Option UnitData)

/-- The structural invariant of `std::map`: no key occurs twice. -/
def UnitMapOk (m : UnitMap) : Prop := (m.map Prod.fst).Nodup

instance (m : UnitMap) : Decidable (UnitMapOk m) := by
  unfold UnitMapOk
  infer_instance

/-- The call `unitPaths.find(info)`: the value stored under a key. -/
def mapFind (m : UnitMap) (info : UnitInfo) : Option (Option UnitData) :=
  (m.find? (fun e => e.1 == info)).map Prod.snd

/-- The call `unitPaths.insert(std::make_pair(info, data))`: `none` when the key is
already there (`.second` false), otherwise the map with the new entry at its
place in the key order. The comparison `UnitInfo::operator<` is declared in
`jobs-systemd.h`, not part of the sources, and is the parameter `lt`. -/
def mapInsert (lt : UnitInfo → UnitInfo → Bool) (info : UnitInfo) (data : Option UnitData)
    (m : UnitMap) : Option UnitMap :=
  if m.any (fun e => e.1 == info) then none
  else some (m.takeWhile (fun e => lt e.1 info) ++ (info, data) :: m.dropWhile (fun e => lt e.1 info))

/-- The assignment `data->unitpath = gpath` through the pointer shared with
the map entry of `info`. -/
def setUnitPath (info : UnitInfo) (gpath : Str) (m : UnitMap) : UnitMap :=
  m.map (fun e =>
    if e.1 == info then (e.1, e.2.map (fun d => { d with unitpath := gpath })) else e)

/-- The `runtime_error`s of `unitNew`. -/
inductive UnitError where
  | jobPathRoot
  | unparsable
  | duplicate
  | getUnitFailed
deriving DecidableEq

deriving instance DecidableEq for Except

/-- The function `SystemD::unitNew`: the returned `UnitInfo` or the error thrown, with the
map as it is left. `getUnit` is the reply of the `GetUnit` call for a unit
name: `none` for an error, `some none` for a null path. -/
def unitNew (lt : UnitInfo → UnitInfo → Bool) (getUnit : Str → Option (Option Str))
    (m : UnitMap) (name path : Str) : Except UnitError UnitInfo × UnitMap :=
  if path == "/".toList then (Except.error UnitError.jobPathRoot, m)
  else
    match parseUnit name with
    | none => (Except.error UnitError.unparsable, m)
    | some info =>
      match mapInsert lt info (some { jobpath := path, unitpath := [] }) m with
      | none => (Except.error UnitError.duplicate, m)
      | some m1 =>
        match getUnit name with
        | none => (Except.error UnitError.getUnitFailed, m1)
        | some none => (Except.ok info, m1)
        | some (some gpath) => (Except.ok info, setUnitPath info gpath m1)

/-- The two values of `Registry::FailureType`. -/
inductive FailureType where
  | CRASH
  | START_FAILURE
deriving DecidableEq

/-- What a signal handler does that is visible outside it, in program order:
the three signals of the job manager and the `ResetFailedUnit` call. -/
inductive Event where
  | jobStarted (job appid inst : Str)
  | jobStopped (job appid inst : Str)
  | jobFailed (job appid inst : Str) (reason : FailureType)
  | resetFailedUnit (unitname : Str)
deriving DecidableEq

/-- The `UnitNew` handler of `setupUserbus` for a signal `(so)` with the unit
name and the job path. -/
def onUnitNew (lt : UnitInfo → UnitInfo → Bool) (getUnit : Str → Option (Option Str))
    (m : UnitMap) (unitname unitpath : Str) : UnitMap × List Event :=
  match parseUnit unitname with
  | none => (m, [])
  | some _ =>
    match unitNew lt getUnit m unitname unitpath with
    | (Except.ok info, m1) => (m1, [Event.jobStarted info.job info.appid info.inst])
    | (Except.error _, m1) => (m1, [])

/-- The function `SystemD::unitRemoved`; `none` is the error thrown by `parseUnit`. -/
def unitRemoved (m : UnitMap) (name _path : Str) : Option (UnitMap × List Event) :=
  match parseUnit name with
  | none => none
  | some info =>
    if m.any (fun e => e.1 == info) then
      some (m.eraseP (fun e => e.1 == info), [Event.jobStopped info.job info.appid info.inst])
    else some (m, [])

/-- The `UnitRemoved` handler of `setupUserbus`. -/
def onUnitRemoved (m : UnitMap) (unitname unitpath : Str) : UnitMap × List Event :=
  match parseUnit unitname with
  | none => (m, [])
  | some _ =>
    match unitRemoved m unitname unitpath with
    | some r => r
    | none => (m, [])

/-- The search loop of the `PropertiesChanged` handler (lines 1201-1209): the
key of the first entry whose unit path is `path`. The test
`unit.second->unitpath == path` dereferences the stored pointer; on a null
pointer the behaviour is undefined, which is the outer `none`. -/
def findUnitByPath (path : Str) : UnitMap → Option (Option UnitInfo)
  | [] => some none
  | (_, none) :: _ => none
  | (info, some data) :: rest =>
    if data.unitpath == path then some (some info) else findUnitByPath path rest

/-- A value of the changed-properties dictionary, as far as the lookup with
format `&s` tells values apart. -/
inductive Variant where
  | string (s : Str)
  | other
deriving DecidableEq

/-- The function `SystemD::resetUnit`. -/
def resetUnit (noResetUnits : Bool) (info : UnitInfo) : List Event :=
  if noResetUnits then [] else [Event.resetFailedUnit (unitName info)]

/-- The `PropertiesChanged` handler installed by `jobFailed`, with the
registry alive. `changed` is the dictionary of changed properties seen through
`g_variant_dict_contains` and `g_variant_dict_lookup`; `none` is the undefined
behaviour of `findUnitByPath`. -/
def onPropertiesChanged (noResetUnits : Bool) (m : UnitMap) (path : Str)
    (changed : Str → Option Variant) : Option (List Event) :=
  match findUnitByPath path m with
  | none => none
  | some none => some []
  | some (some unitinfo) =>
    match changed "Result".toList with
    | none => some []
    | some v =>
      let value : Option Str :=
        match v with
        | Variant.string s => some s
        | Variant.other => none
      if value == some "success".toList then some []
      else
        let reason :=
          if value == some "exit-code".toList then FailureType.START_FAILURE else FailureType.CRASH
        some (resetUnit noResetUnits unitinfo
          ++ [Event.jobFailed unitinfo.job unitinfo.appid unitinfo.inst reason])

/-- One element `(ssssssouso)` of the reply of `ListUnits`, with the names of
the variables that `getInitialUnits` reads it into. -/
structure ListedUnit where
  id : Str
  description : Str
  loadState : Str
  activeState : Str
  subState : Str
  following : Str
  path : Str
  jobId : Nat
  jobType : Str
  jobPath : Str

/-- The function `SystemD::getInitialUnits` (lines 320-370); `reply` is `none`
when the `ListUnits` call fails. Every element is given to `unitNew` with its
`jobPath`, the errors are caught and dropped, and no signal is emitted. -/
def getInitialUnits (lt : UnitInfo → UnitInfo → Bool) (getUnit : Str → Option (Option Str))
    (reply : Option (List ListedUnit)) (m : UnitMap) : UnitMap × List Event :=
  match reply with
  | none => (m, [])
  | some units => (units.foldl (fun m unit => (unitNew lt getUnit m unit.id unit.jobPath).2) m, [])

/-- The keys of a unit map with the unit path that each holds, the job paths
left out; a null pointer stays `none`. -/
def keysAndUnitPaths (m : UnitMap) : List (UnitInfo × Option Str) :=
  m.map (fun e => (e.1, e.2.map (fun d => d.unitpath)))

/-- The comparison `operator<` of `std::string`: the order of the first
characters that differ, a proper prefix coming first. -/
def strLt : Str → Str → Bool
  | [], [] => false
  | [], _ :: _ => true
  | _ :: _, [] => false
  | a :: as, b :: bs => if a < b then true else if b < a then false else strLt as bs

/-- The call `appids.insert(x)` on a `std::set<std::string>`, as the list of its
elements in order: `x` goes before the first element greater than it, unless
an element equivalent to it is met first. -/
def setInsert (x : Str) : List Str → List Str
  | [] => [x]
  | y :: ys =>
    if strLt x y then x :: y :: ys
    else if strLt y x then y :: setInsert x ys
    else y :: ys

/-- The function `SystemD::runningAppIds` (lines 836-853): the appids of the
keys whose job is in `allJobs` are put in a set, which is returned as a list. -/
def runningAppIds (m : UnitMap) (allJobs : List Str) : List Str :=
  m.foldl (fun appids unit =>
    if allJobs.contains unit.1.job then setInsert unit.1.appid appids else appids) []

/-! ## Exec field codes (`desktop-exec.c`, lines 70-144) -/

/-- The pieces of a string between the characters satisfying `p`; there is
always at least one piece. -/
def splitBy (p : Char → Bool) : Str → List Str
  | [] => [[]]
  | c :: cs =>
    if p c then [] :: splitBy p cs
    else
      match splitBy p cs with
      | [] => [[c]]
      | piece :: pieces => (c :: piece) :: pieces

/-- The function `g_strsplit(string, "%", 0)`: the pieces between the `%` characters; the
empty string gives the empty vector. -/
def g_strsplit (string : Str) : List Str :=
  if string.isEmpty then [] else splitBy (fun c => c == '%') string

/-- The strings of a null-terminated array of `gchar *`: those before the
first null element. -/
def untilNull : List (Option Str) → List Str
  | some s :: rest => s :: untilNull rest
  | _ => []

/-- The function `g_strjoinv(" ", array)` on a null-terminated array. -/
def g_strjoinv (array : List (Option Str)) : Str :=
  " ".toList.intercalate (untilNull array)

/-- The body of the `switch` of `handle_codes` for the piece `execsplit[i]`:
the pointers appended to `outarray`. With a null `uri_list`,
`g_utf8_strchr` returns null and the `%u` case appends the null pointer. -/
def expandCode (uri_list : Option Str) : Str → List (Option Str)
  | [] => [some "%".toList]
  | c :: skipchar =>
    if c == 'd' || c == 'D' || c == 'n' || c == 'N' || c == 'v' || c == 'm' then [some skipchar]
    else if c == 'f' || c == 'F' then [some skipchar]
    else if c == 'i' || c == 'c' || c == 'k' then [some skipchar]
    else if c == 'U' then [uri_list, some skipchar]
    else if c == 'u' then
      match uri_list with
      | none => [none, some skipchar]
      | some uris =>
        if !uris.contains ' ' then [some uris, some skipchar]
        else [some (uris.takeWhile (fun x => x != ' ')), some skipchar]
    else [some skipchar]

/-- The array `outarray` of `handle_codes` for the pieces of the Exec line:
the first piece, then what each further piece appends. -/
def outarray (uri_list : Option Str) : List Str → List (Option Str)
  | [] => []
  | first :: rest => some first :: rest.flatMap (expandCode uri_list)

/-- The function `handle_codes`. For the empty Exec line the split vector is empty and the
test `execsplit[1] == NULL` reads past its terminator: that is `none`. -/
def handle_codes (execline : Str) (uri_list : Option Str) : Option Str :=
  match g_strsplit execline with
  | [] => none
  | [_] => some execline
  | pieces => some (g_strjoinv (outarray uri_list pieces))

/-- What `handle_codes` makes of a stretch of an Exec line: the array built
from the pieces of the stretch, joined. -/
def expandText (uri_list : Option Str) (text : Str) : Str :=
  g_strjoinv (outarray uri_list (splitBy (fun c => c == '%') text))

/-- The words of a command line: the non-empty pieces between white space. -/
def wsTokens (s : Str) : List Str :=
  (splitBy Char.isWhitespace s).filter (fun t => !t.isEmpty)

/-! ## Queries on a unit (`jobs-systemd.cpp`, lines 884-897 and 971-1116) -/

/-- The call `unitPaths[info]` of `unitPath`: the value stored under the key;
when the key is absent `operator[]` first inserts it with a null pointer, at
its place in the key order. -/
def mapIndex (lt : UnitInfo → UnitInfo → Bool) (info : UnitInfo) (m : UnitMap) :
    Option UnitData × UnitMap :=
  match m.find? (fun e => e.1 == info) with
  | some e => (e.2, m)
  | none =>
    (none, m.takeWhile (fun e => lt e.1 info) ++ (info, none) :: m.dropWhile (fun e => lt e.1 info))

/-- The function `SystemD::unitPath` (lines 884-897): the unit path of the entry,
empty for a null pointer, with the map as `operator[]` leaves it. -/
def unitPath (lt : UnitInfo → UnitInfo → Bool) (m : UnitMap) (info : UnitInfo) : Str × UnitMap :=
  match mapIndex lt info m with
  | (none, m1) => ([], m1)
  | (some data, m1) => (data.unitpath, m1)

/-- The function `SystemD::unitPrimaryPid` (lines 971-1020). `getMainPID` is the
reply of the call `Get(MainPID)` on a unit path, `none` for an error; the
result `none` is the `runtime_error` thrown then. -/
def unitPrimaryPid (lt : UnitInfo → UnitInfo → Bool) (getMainPID : Str → Option Nat)
    (m : UnitMap) (appId job instance_ : Str) : Option Nat × UnitMap :=
  let unitinfo : UnitInfo := { appid := appId, job := job, inst := instance_ }
  let r := unitPath lt m unitinfo
  if r.1.isEmpty then (some 0, r.2) else (getMainPID r.1, r.2)

/-- The C library `isspace` in the C locale. -/
def isspace (c : Char) : Bool :=
  c == ' ' || c == '\t' || c == '\n' || c == '\x0b' || c == '\x0c' || c == '\r'

/-- The value of the decimal digits at the head of a string, after `acc`. -/
def digitsValue : Str → Nat → Nat
  | [], acc => acc
  | c :: cs, acc => if digitMatches c then digitsValue cs (acc * 10 + (c.toNat - 48)) else acc

/-- The C library `atoi`: white space is skipped, a sign is read, and the
decimal digits that follow give the value, 0 when there is none. This is its
value for the numbers that fit an `int`. -/
def atoi (s : Str) : Int :=
  match s.dropWhile isspace with
  | '-' :: rest => -(digitsValue rest 0 : Int)
  | '+' :: rest => (digitsValue rest 0 : Int)
  | rest => (digitsValue rest 0 : Int)

/-- The call `g_strsplit(string, delimiter, -1)` for a delimiter of one
character: the pieces between the delimiters; the empty string gives the empty
vector. -/
def g_strsplit_char (string : Str) (delimiter : Char) : List Str :=
  if string.isEmpty then [] else splitBy (fun c => c == delimiter) string

/-- The function `SystemD::unitPids` (lines 1022-1116). `getControlGroup` is the
reply of the call `Get(ControlGroup)` on a unit path: `none` for an error,
`some none` for a null string; `g_file_get_contents` gives the content of a
file, `none` when it cannot be read. The result `none` is the `runtime_error`
thrown when the call fails. -/
def unitPids (lt : UnitInfo → UnitInfo → Bool) (cgroup_root : Str)
    (getControlGroup : Str → Option (Option Str)) (g_build_filename : Str → Str → Str → Str)
    (g_file_get_contents : Str → Option Str) (m : UnitMap) (appId job instance_ : Str) :
    Option (List Int) × UnitMap :=
  let unitinfo : UnitInfo := { appid := appId, job := job, inst := instance_ }
  let r := unitPath lt m unitinfo
  if r.1.isEmpty then (some [], r.2)
  else
    match getControlGroup r.1 with
    | none => (none, r.2)
    | some reply =>
      let cgrouppath : Str :=
        match reply with
        | some group => group
        | none => []
      let fullpath := g_build_filename cgroup_root cgrouppath "tasks".toList
      match g_file_get_contents fullpath with
      | none => (some [], r.2)
      | some pidstr =>
        let pidlines := g_strsplit_char pidstr '\n'
        (some (pidlines.filterMap (fun pidline =>
          if pidline.head? != some '\n' then
            if atoi pidline != 0 then some (atoi pidline) else none
          else none)), r.2)

/-! ## The program `desktop-exec` (`desktop-exec.c`, lines 24-68 and 146-196) -/

/-- A loaded `GKeyFile`, as far as the program reads it: `g_key_file_has_group`,
`g_key_file_has_key` and `g_key_file_get_string`, `none` for a null result. -/
structure GKeyFile where
  has_group : Str → Bool
  has_key : Str → Str → Bool
  get_string : Str → Str → Option Str

/-- What the program reads of the system. -/
structure DesktopWorld where
  /-- The result of `g_get_user_data_dir()`. -/
  userDataDir : Str
  /-- The result of `g_get_system_data_dirs()`. -/
  systemDataDirs : List Str
  /-- The call `g_build_filename(dir, "applications", desktop, NULL)`. -/
  g_build_filename : Str → Str → Str → Str
  /-- The call `g_key_file_load_from_file` on a path: the key file when the
  file loads, `none` when it does not. -/
  load : Str → Option GKeyFile

/-- The function `try_dir`. -/
def try_dir (w : DesktopWorld) (dir desktop : Str) : Option GKeyFile :=
  w.load (w.g_build_filename dir "applications".toList desktop)

/-- The function `verify_keyfile`. -/
def verify_keyfile (inkeyfile : Option GKeyFile) (_desktop : Str) : Option GKeyFile :=
  match inkeyfile with
  | none => none
  | some keyfile =>
    let passed := true
    let passed := if passed && !keyfile.has_group "Desktop Entry".toList then false else passed
    let passed :=
      if passed && !keyfile.has_key "Desktop Entry".toList "Exec".toList then false else passed
    if passed then some keyfile else none

/-- The loop of `main` over `data_dirs` (lines 163-166), which runs while no key
file has been found. -/
def searchDataDirs (w : DesktopWorld) (desktop : Str) : List Str → Option GKeyFile → Option GKeyFile
  | [], keyfile => keyfile
  | dir :: rest, keyfile =>
    match keyfile with
    | some found => some found
    | none => searchDataDirs w desktop rest (verify_keyfile (try_dir w dir desktop) desktop)

/-- The key file that `main` ends up with (lines 160-166). -/
def findKeyfile (w : DesktopWorld) (desktop : Str) : Option GKeyFile :=
  searchDataDirs w desktop w.systemDataDirs
    (verify_keyfile (try_dir w w.userDataDir desktop) desktop)

/-- The ways in which the program ends: it prints on the standard output and
returns 0, it is aborted by `g_error`, it returns 1, or its behaviour is
undefined. -/
inductive Outcome where
  | printed (out : Str)
  | aborted
  | returned1
  | undefined
deriving DecidableEq

/-- The rest of `main` once the key file is found (lines 173-195). -/
def printCommand (keyfile : GKeyFile) (uri_list : Option Str) : Outcome :=
  match keyfile.get_string "Desktop Entry".toList "Exec".toList with
  | none => Outcome.returned1
  | some execline =>
    match handle_codes execline uri_list with
    | none => Outcome.undefined
    | some codeexec =>
      let execline :=
        match keyfile.get_string "Desktop Entry".toList "XCanonicalAppArmorProfile".toList with
        | some apparmor =>
          "aa-exec -p \"".toList ++ apparmor ++ "\" -- ".toList ++ codeexec
        | none => codeexec
      Outcome.printed (execline ++ "\n".toList)

/-- The function `main` on the argument vector `argv`. -/
def main (w : DesktopWorld) (argv : List Str) : Outcome :=
  if argv.length != 2 && argv.length != 3 then Outcome.aborted
  else
    match argv with
    | _ :: app_id :: rest =>
      let desktop := app_id ++ ".desktop".toList
      match findKeyfile w desktop with
      | none => Outcome.aborted
      | some keyfile => printCommand keyfile rest.head?
    | _ => Outcome.aborted

/-- The search in the words of the specification: the key file of the first
directory, the user data directory first and then the system data directories
in order, whose file loads and has a `Desktop Entry` group with an `Exec` key. -/
def firstQualifying (w : DesktopWorld) (desktop : Str) : Option GKeyFile :=
  (w.userDataDir :: w.systemDataDirs).findSome? (fun dir =>
    match w.load (w.g_build_filename dir "applications".toList desktop) with
    | some keyfile =>
      if keyfile.has_group "Desktop Entry".toList
          && keyfile.has_key "Desktop Entry".toList "Exec".toList then some keyfile
      else none
    | none => none)

/-! ## App stores (`app-store-base.cpp`, lines 43-54) -/

/-- The variants of the application store that `allAppStores` makes. -/
inductive StoreKind where
  | Legacy
  | Libertine
  | Snap
deriving DecidableEq

/-- The function `Base::allAppStores`, one store per element of its brace
initialiser; `HAVE_LIBERTINE` tells whether the macro of that name is defined
at compile time. -/
def allAppStores (HAVE_LIBERTINE : Bool) : List StoreKind :=
  [StoreKind.Legacy] ++ (if HAVE_LIBERTINE then [StoreKind.Libertine] else [])
    ++ [StoreKind.Snap]

/-! ## Well-formedness in the words of the specification -/

/-- The job grammar `[^-]+(-[^-]+)*` of the specification: the pieces between
the dashes are all non-empty. -/
def jobGrammar (job : Str) : Bool :=
  (splitBy (fun c => c == '-') job).all (fun piece => !piece.isEmpty)

/-- A `UnitInfo` that is well-formed under the unit grammar of the
specification: the job follows `jobGrammar`, the appid is any non-empty string
and the instance is a possibly empty string of decimal digits. -/
def WellFormedUnit (u : UnitInfo) : Prop :=
  jobGrammar u.job = true ∧ u.appid ≠ [] ∧ ∀ c ∈ u.inst, digitMatches c = true

instance (u : UnitInfo) : Decidable (WellFormedUnit u) := by
  unfold WellFormedUnit
  infer_instance

/-- The reference grammar of the specification,
`^ubuntu-app-launch--([^-]+(?:-[^-]+)*)--(.+)--([0-9]*)\.service$`: the name of
a well-formed unit whose appid, matched by `.+`, has no line terminator. -/
def ReferenceGrammar (s : Str) : Prop :=
  ∃ u : UnitInfo, WellFormedUnit u ∧ (∀ c ∈ u.appid, dotMatches c = true) ∧ s = unitName u

/-! ## Sample inputs -/

/-- A process and library state for the examples: a session with a display and
a Mir socket, process 4242, no observer of starting applications, a shell
quoting that wraps in single quotes, no program found in the path and a
tokenizer that splits at white space. -/
def sampleWorld : World where
  environ := ["HOME=/home/phablet".toList, "DISPLAY=:0".toList, "MIR_SOCKET=/run/mir_socket".toList]
  pid := 4242
  appJobs := ["application-legacy".toList, "application-snap".toList]
  watchingAppStarting := false
  runtimeDir := "/run/user/1000".toList
  g_shell_quote := fun s => some ("'".toList ++ s ++ "'".toList)
  g_find_program_in_path := fun _ => none
  desktop_exec_parse := fun exec _ => (wsTokens exec).map some

/-- A launch of the legacy application `foo` whose base environment carries
the usual `APP_EXEC` and `APP_DIR`. -/
def sampleArgs : LaunchArgs where
  appId := { empty := false, str := "foo".toList, packageEmpty := true }
  job := "application-legacy".toList
  instance_ := "1".toList
  urls := []
  mode := LaunchMode.STANDARD
  baseEnv := [("APP_EXEC".toList, "foo".toList), ("APP_DIR".toList, "/usr/share/foo".toList)]

/-- The environment that the sample launch assembles. -/
def sampleEnv : Env :=
  [("APP_EXEC".toList, "foo".toList), ("APP_DIR".toList, "/usr/share/foo".toList),
   ("APP_ID".toList, "foo".toList), ("APP_LAUNCHER_PID".toList, "4242".toList),
   ("DISPLAY".toList, ":0".toList), ("MIR_SOCKET".toList, "/run/mir_socket".toList)]

/-- The same launch with a base environment that already has an
`APP_LAUNCHER_PID` entry. -/
def sampleArgsWithPid : LaunchArgs :=
  { sampleArgs with
    baseEnv := [("APP_EXEC".toList, "foo".toList), ("APP_LAUNCHER_PID".toList, "1".toList)] }

/-- A launch of the legacy application `foo` whose base environment has no
`APP_EXEC`. -/
def sampleArgsNoExec : LaunchArgs :=
  { sampleArgs with baseEnv := [] }

/-- An environment with a command and an apparmor policy. -/
def sampleExecEnv : Env :=
  [("APP_EXEC".toList, "foo --bar".toList), ("APP_EXEC_POLICY".toList, "foo_profile".toList)]

/-- The name of instance 1 of the legacy application `foo`. -/
def sampleUnitName : Str := "ubuntu-app-launch--application-legacy--foo--1.service".toList

/-- The key that `sampleUnitName` parses to. -/
def sampleUnitInfo : UnitInfo :=
  { appid := "foo".toList, job := "application-legacy".toList, inst := "1".toList }

/-- The map that holds the sample unit alone. -/
def sampleUnitMap : UnitMap :=
  [(sampleUnitInfo, some { jobpath := "/job/1".toList, unitpath := "/unit/1".toList })]

/-- The map left by an announcement of the sample unit whose `GetUnit` call
failed: the key with the job path and an empty unit path. -/
def sampleStuckMap : UnitMap :=
  [(sampleUnitInfo, some { jobpath := "/job/1".toList, unitpath := [] })]

/-- The sample unit as `ListUnits` reports it while its start job runs. -/
def sampleListedUnit : ListedUnit where
  id := sampleUnitName
  description := "foo".toList
  loadState := "loaded".toList
  activeState := "activating".toList
  subState := "start".toList
  following := []
  path := "/unit/1".toList
  jobId := 1
  jobType := "start".toList
  jobPath := "/job/1".toList

/-- The sample unit as `ListUnits` reports it once it runs and no job is
queued for it: the job id is 0 and the job path is `/`. -/
def sampleListedUnitNoJob : ListedUnit where
  id := sampleUnitName
  description := "foo".toList
  loadState := "loaded".toList
  activeState := "active".toList
  subState := "running".toList
  following := []
  path := "/unit/1".toList
  jobId := 0
  jobType := []
  jobPath := "/".toList

/-- A key file with the single group `Desktop Entry` and the given keys. -/
def sampleKeyFile (keys : List (Str × Str)) : GKeyFile where
  has_group := fun group => group == "Desktop Entry".toList
  has_key := fun group key => group == "Desktop Entry".toList && (keys.lookup key).isSome
  get_string := fun group key => if group == "Desktop Entry".toList then keys.lookup key else none

/-- A system for the examples. The user data directory has no desktop file;
`/usr/local/share` has a `foo.desktop` without an `Exec` key; `/usr/share` has a
`foo.desktop` with an `Exec` key and the key `X-Canonical-AppArmor-Profile`, a
`bar.desktop` with the key `XCanonicalAppArmorProfile` and an `empty.desktop`
whose `Exec` key has an empty value. -/
def sampleDesktopWorld : DesktopWorld where
  userDataDir := "/home/phablet/.local/share".toList
  systemDataDirs := ["/usr/local/share".toList, "/usr/share".toList]
  g_build_filename := fun dir sub file => dir ++ "/".toList ++ sub ++ "/".toList ++ file
  load := fun path =>
    if path == "/usr/local/share/applications/foo.desktop".toList then
      some (sampleKeyFile [("Name".toList, "Foo".toList)])
    else if path == "/usr/share/applications/foo.desktop".toList then
      some (sampleKeyFile [("Exec".toList, "foo %u".toList),
        ("X-Canonical-AppArmor-Profile".toList, "foo_profile".toList)])
    else if path == "/usr/share/applications/bar.desktop".toList then
      some (sampleKeyFile [("Exec".toList, "bar %U".toList),
        ("XCanonicalAppArmorProfile".toList, "bar_profile".toList)])
    else if path == "/usr/share/applications/empty.desktop".toList then
      some (sampleKeyFile [("Exec".toList, [])])
    else none

/-- A changed-properties dictionary with the single entry `Result`. -/
def resultOnly (v : Variant) : Str → Option Variant :=
  fun key => if key = "Result".toList then some v else none

/-! # Properties -/

/-! ## Properties of the unit-name pattern -/

theorem matchLit_append (lit r : Str) : matchLit lit (lit ++ r) = some r := by
  simp [matchLit]

theorem matchLit_eq_some {lit s r : Str} (h : matchLit lit s = some r) : s = lit ++ r := by
  unfold matchLit at h
  split at h
  · rename_i hp
    obtain ⟨t, rfl⟩ := List.isPrefixOf_iff_prefix.mp hp
    simp at h
    rw [h]
  · cases h

/-- When the continuation fails after every longer run, the star stops where it is. -/
theorem matchStar_stop {α : Type} (p : Char → Bool) (k : Str → Str → Option α) :
    ∀ (s acc : Str),
      (∀ a b, a ≠ [] → s = a ++ b → (∀ c ∈ a, p c = true) → k (acc ++ a) b = none) →
      matchStar p k acc s = k acc s := by
  intro s
  induction s with
  | nil => intro acc _; rfl
  | cons c cs ih =>
    intro acc h
    unfold matchStar
    split
    · rename_i hc
      have hrec : matchStar p k (acc ++ [c]) cs = none := by
        rw [ih]
        · exact h [c] cs (by simp) rfl (by simpa using hc)
        · intro a b ha hs hall
          have := h (c :: a) b (by simp) (by rw [hs]; rfl) (by
            intro x hx
            rcases List.mem_cons.mp hx with rfl | hx
            · exact hc
            · exact hall x hx)
          simpa using this
      rw [hrec]
    · rfl

/-- The star is greedy: it takes the run `a` when the continuation accepts after
`a` and after no longer run. -/
theorem matchStar_take {α : Type} (p : Char → Bool) (k : Str → Str → Option α) (r : α) :
    ∀ (a b acc : Str),
      (∀ c ∈ a, p c = true) →
      k (acc ++ a) b = some r →
      (∀ a1 b1, a1 ≠ [] → b = a1 ++ b1 → (∀ c ∈ a1, p c = true) → k (acc ++ a ++ a1) b1 = none) →
      matchStar p k acc (a ++ b) = some r := by
  intro a
  induction a with
  | nil =>
    intro b acc _ hk hext
    rw [List.nil_append, matchStar_stop p k b acc]
    · simpa using hk
    · intro a1 b1 h1 h2 h3
      simpa using hext a1 b1 h1 h2 h3
  | cons c cs ih =>
    intro b acc hall hk hext
    have hc : p c = true := hall c (by simp)
    have hrec : matchStar p k (acc ++ [c]) (cs ++ b) = some r := by
      apply ih
      · intro x hx; exact hall x (by simp [hx])
      · simpa using hk
      · intro a1 b1 h1 h2 h3
        simpa using hext a1 b1 h1 h2 h3
    show matchStar p k acc (c :: (cs ++ b)) = some r
    unfold matchStar
    rw [if_pos hc, hrec]

/-- Whatever the star returns, the continuation returned it after some run. -/
theorem matchStar_sound {α : Type} (p : Char → Bool) (k : Str → Str → Option α) (r : α) :
    ∀ (s acc : Str), matchStar p k acc s = some r →
      ∃ a b, s = a ++ b ∧ (∀ c ∈ a, p c = true) ∧ k (acc ++ a) b = some r := by
  intro s
  induction s with
  | nil =>
    intro acc h
    exact ⟨[], [], rfl, by simp, by simpa [matchStar] using h⟩
  | cons c cs ih =>
    intro acc h
    unfold matchStar at h
    split at h
    · rename_i hc
      split at h
      · rename_i r1 hrec
        cases h
        obtain ⟨a, b, hs, hall, hk⟩ := ih (acc ++ [c]) hrec
        refine ⟨c :: a, b, by rw [hs]; rfl, ?_, ?_⟩
        · intro x hx
          rcases List.mem_cons.mp hx with rfl | hx
          · exact hc
          · exact hall x hx
        · simpa using hk
      · exact ⟨[], c :: cs, rfl, by simp, by simpa using h⟩
    · exact ⟨[], c :: cs, rfl, by simp, by simpa using h⟩

theorem digit_ne_dash {c : Char} (h : digitMatches c = true) : c ≠ '-' := by
  rintro rfl
  revert h
  decide

/-- The first occurrence of a separator after a run free of it is determined. -/
theorem sep_unique (s : Char) :
    ∀ (a b r t : Str), (∀ c ∈ a, c ≠ s) → (∀ c ∈ b, c ≠ s) →
      a ++ s :: r = b ++ s :: t → a = b ∧ r = t := by
  intro a
  induction a with
  | nil =>
    intro b r t _ hb h
    cases b with
    | nil => simpa using h
    | cons c b1 =>
      simp at h
      exact absurd h.1.symm (hb c (by simp))
  | cons c a1 ih =>
    intro b r t ha hb h
    cases b with
    | nil =>
      simp at h
      exact absurd h.1 (ha c (by simp))
    | cons d b1 =>
      simp at h
      obtain ⟨hcd, hrest⟩ := h
      obtain ⟨h1, h2⟩ := ih b1 r t (fun x hx => ha x (by simp [hx]))
        (fun x hx => hb x (by simp [hx])) hrest
      exact ⟨by rw [hcd, h1], h2⟩

/-- A string ends in one way only with a dash followed by decimal digits. -/
theorem digits_suffix_unique {x y d1 d2 : Str}
    (h1 : ∀ c ∈ d1, digitMatches c = true) (h2 : ∀ c ∈ d2, digitMatches c = true)
    (h : x ++ '-' :: d1 = y ++ '-' :: d2) : x = y ∧ d1 = d2 := by
  have hr := congrArg List.reverse h
  simp only [List.reverse_append, List.reverse_cons, List.append_assoc, List.singleton_append] at hr
  obtain ⟨ha, hb⟩ := sep_unique '-' d1.reverse d2.reverse x.reverse y.reverse
    (fun c hc => digit_ne_dash (h1 c (List.mem_reverse.mp hc)))
    (fun c hc => digit_ne_dash (h2 c (List.mem_reverse.mp hc))) hr
  exact ⟨List.reverse_injective hb, List.reverse_injective ha⟩

theorem matchInst_sound {m1 m2 r4 : Str} {u : UnitInfo} (h : matchInst m1 m2 r4 = some u) :
    ∃ g3, r4 = g3 ++ ".service".toList ∧ (∀ c ∈ g3, digitMatches c = true) ∧
      u = { appid := m2, job := m1, inst := g3 } := by
  obtain ⟨a, b, hs, hall, hk⟩ := matchStar_sound _ _ u r4 [] h
  simp only [List.nil_append] at hk
  split at hk
  · rename_i hend
    have hb : b = ".service".toList := by simpa [matchEnd] using hend
    cases hk
    exact ⟨a, by rw [hs, hb], hall, rfl⟩
  · cases hk

theorem matchAppid_sound {m1 r2 : Str} {u : UnitInfo} (h : matchAppid m1 r2 = some u) :
    ∃ g2 g3, r2 = g2 ++ "--".toList ++ g3 ++ ".service".toList ∧
      (∀ c ∈ g2, dotMatches c = true) ∧ (∀ c ∈ g3, digitMatches c = true) ∧
      u = { appid := g2, job := m1, inst := g3 } := by
  obtain ⟨a, b, hs, hall, hk⟩ := matchStar_sound _ _ u r2 [] h
  simp only [List.nil_append] at hk
  split at hk
  · cases hk
  · rename_i r4 hlit
    obtain ⟨g3, h4, hd, hu⟩ := matchInst_sound hk
    refine ⟨a, g3, ?_, hall, hd, hu⟩
    rw [hs, matchLit_eq_some hlit, h4]
    simp

theorem matchJob_sound {r0 : Str} {u : UnitInfo} (h : matchJob r0 = some u) :
    ∃ g1 g2 g3, r0 = g1 ++ "--".toList ++ g2 ++ "--".toList ++ g3 ++ ".service".toList ∧
      (∀ c ∈ g1, dotMatches c = true) ∧ (∀ c ∈ g2, dotMatches c = true) ∧
      (∀ c ∈ g3, digitMatches c = true) ∧ u = { appid := g2, job := g1, inst := g3 } := by
  obtain ⟨a, b, hs, hall, hk⟩ := matchStar_sound _ _ u r0 [] h
  simp only [List.nil_append] at hk
  split at hk
  · cases hk
  · rename_i r2 hlit
    obtain ⟨g2, g3, h2, hd2, hd3, hu⟩ := matchAppid_sound hk
    refine ⟨a, g2, g3, ?_, hall, hd2, hd3, hu⟩
    rw [hs, matchLit_eq_some hlit, h2]
    simp

/-- Every accepted name is the fixed text around three captures, and the
captures are what is returned. -/
theorem parseUnit_sound {unit : Str} {u : UnitInfo} (h : parseUnit unit = some u) :
    unit = unitName u ∧ (∀ c ∈ u.job, dotMatches c = true) ∧
      (∀ c ∈ u.appid, dotMatches c = true) ∧ (∀ c ∈ u.inst, digitMatches c = true) := by
  unfold parseUnit at h
  split at h
  · cases h
  · rename_i r0 hlit
    obtain ⟨g1, g2, g3, h0, hd1, hd2, hd3, hu⟩ := matchJob_sound h
    subst hu
    refine ⟨?_, hd1, hd2, hd3⟩
    rw [matchLit_eq_some hlit, h0]
    simp [unitName]

theorem matchInst_complete (m1 m2 inst : Str) (hinst : ∀ c ∈ inst, digitMatches c = true) :
    matchInst m1 m2 (inst ++ ".service".toList) = some { appid := m2, job := m1, inst := inst } := by
  unfold matchInst
  apply matchStar_take
  · exact hinst
  · simp [matchEnd]
  · intro a1 b1 h1 h2 h3
    exfalso
    cases a1 with
    | nil => exact h1 rfl
    | cons c a2 =>
      have hc := h3 c (by simp)
      have : c = '.' := by
        have := congrArg List.head? h2
        simpa using this.symm
      rw [this] at hc
      revert hc
      decide

theorem matchAppid_complete (m1 appid inst : Str) (happ : ∀ c ∈ appid, dotMatches c = true)
    (hinst : ∀ c ∈ inst, digitMatches c = true) :
    matchAppid m1 (appid ++ "--".toList ++ inst ++ ".service".toList)
      = some { appid := appid, job := m1, inst := inst } := by
  unfold matchAppid
  rw [List.append_assoc, List.append_assoc]
  apply matchStar_take
  · exact happ
  · simp only [List.nil_append, matchLit_append]
    exact matchInst_complete m1 appid inst hinst
  · intro a1 b1 h1 h2 h3
    simp only [List.nil_append]
    split
    · rfl
    · rename_i r4 hlit
      cases hres : matchInst m1 (appid ++ a1) r4 with
      | none => rfl
      | some u =>
        exfalso
        obtain ⟨g3, h4, hd, _⟩ := matchInst_sound hres
        rw [matchLit_eq_some hlit, h4] at h2
        have h5 : ['-'] ++ '-' :: inst = (a1 ++ ['-']) ++ '-' :: g3 := by
          have := List.append_cancel_right (by simpa [List.append_assoc] using h2 :
            (['-'] ++ '-' :: inst) ++ ".service".toList
              = ((a1 ++ ['-']) ++ '-' :: g3) ++ ".service".toList)
          exact this
        obtain ⟨h6, _⟩ := digits_suffix_unique hinst hd h5
        have h7 := congrArg List.length h6
        simp at h7
        exact h1 h7

theorem matchJob_complete (job appid inst : Str) (hjob : ∀ c ∈ job, dotMatches c = true)
    (happ : ∀ c ∈ appid, dotMatches c = true) (hinst : ∀ c ∈ inst, digitMatches c = true)
    (hdd : ¬ "--".toList <:+: appid) (hlead : appid.head? ≠ some '-') :
    matchJob (job ++ "--".toList ++ appid ++ "--".toList ++ inst ++ ".service".toList)
      = some { appid := appid, job := job, inst := inst } := by
  unfold matchJob
  have hassoc : job ++ "--".toList ++ appid ++ "--".toList ++ inst ++ ".service".toList
      = job ++ ("--".toList ++ (appid ++ "--".toList ++ inst ++ ".service".toList)) := by simp
  rw [hassoc]
  apply matchStar_take
  · exact hjob
  · simp only [List.nil_append, matchLit_append]
    exact matchAppid_complete job appid inst happ hinst
  · intro a1 b1 h1 h2 h3
    simp only [List.nil_append]
    split
    · rfl
    · rename_i r2 hlit
      cases hres : matchAppid (job ++ a1) r2 with
      | none => rfl
      | some u =>
        exfalso
        obtain ⟨g2, g3, h4, _, hd, _⟩ := matchAppid_sound hres
        rw [matchLit_eq_some hlit, h4] at h2
        have h5 : ("--".toList ++ appid ++ ['-']) ++ '-' :: inst
            = (a1 ++ "--".toList ++ g2 ++ ['-']) ++ '-' :: g3 := by
          have := List.append_cancel_right (by simpa [List.append_assoc] using h2 :
            (("--".toList ++ appid ++ ['-']) ++ '-' :: inst) ++ ".service".toList
              = ((a1 ++ "--".toList ++ g2 ++ ['-']) ++ '-' :: g3) ++ ".service".toList)
          exact this
        obtain ⟨h6, _⟩ := digits_suffix_unique hinst hd h5
        have h7 : "--".toList ++ appid = a1 ++ "--".toList ++ g2 := List.append_cancel_right h6
        cases a1 with
        | nil => exact h1 rfl
        | cons x a2 =>
          cases a2 with
          | nil =>
            have h8 : '-' = x ∧ appid = '-' :: g2 := by simpa using h7
            exact hlead (by rw [h8.2]; rfl)
          | cons y a3 =>
            have h9 := h7
            simp at h9
            obtain ⟨_, _, h10⟩ := h9
            exact hdd ⟨a3, g2, by rw [h10]; simp⟩

/-- The names built from a job and an appid free of line terminators, an appid
that neither contains `--` nor starts with `-`, and a decimal instance parse
back to their parts. -/
theorem parseUnit_unitName_of_unambiguous (u : UnitInfo)
    (hjob : ∀ c ∈ u.job, dotMatches c = true) (happ : ∀ c ∈ u.appid, dotMatches c = true)
    (hinst : ∀ c ∈ u.inst, digitMatches c = true)
    (hdd : ¬ "--".toList <:+: u.appid) (hlead : u.appid.head? ≠ some '-') :
    parseUnit (unitName u) = some u := by
  unfold parseUnit unitName
  simp only [List.append_assoc, matchLit_append]
  have := matchJob_complete u.job u.appid u.inst hjob happ hinst hdd hlead
  simpa [List.append_assoc] using this

/-! ## C1: parsing a rendered unit name -/

/-- C1, counterexample: the unit with job `application-legacy`, appid `foo--bar`
and instance `123` is well-formed under the unit grammar, yet parsing its name
returns the job `application-legacy--foo` and the appid `bar`, not the unit. -/
theorem parseUnit_unitName_wellFormed_counterexample :
    WellFormedUnit
        { appid := "foo--bar".toList, job := "application-legacy".toList, inst := "123".toList } ∧
      parseUnit (unitName
        { appid := "foo--bar".toList, job := "application-legacy".toList, inst := "123".toList })
        = some { appid := "bar".toList, job := "application-legacy--foo".toList,
                 inst := "123".toList } ∧
      parseUnit (unitName
        { appid := "foo--bar".toList, job := "application-legacy".toList, inst := "123".toList })
        ≠ some { appid := "foo--bar".toList, job := "application-legacy".toList,
                 inst := "123".toList } := by
  decide

/-- C1, as amended: for every `UnitInfo` whose job and appid contain no line
terminator, whose appid neither contains `--` nor begins with `-`, and whose
instance is a possibly empty string of decimal digits, `parseUnit (unitName u)`
succeeds and returns `u`: the same job, appid and instance. -/
theorem parseUnit_unitName_roundtrip (u : UnitInfo)
    (hjob : ∀ c ∈ u.job, dotMatches c = true) (happ : ∀ c ∈ u.appid, dotMatches c = true)
    (hinst : ∀ c ∈ u.inst, digitMatches c = true)
    (hdd : ¬ "--".toList <:+: u.appid) (hlead : u.appid.head? ≠ some '-') :
    parseUnit (unitName u) = some u :=
  parseUnit_unitName_of_unambiguous u hjob happ hinst hdd hlead

/-- C1, witness: the unit of job `application-legacy`, appid `foo-bar` and
instance `123` meets the hypotheses and parses back. -/
theorem parseUnit_unitName_roundtrip_witness :
    parseUnit (unitName
      { appid := "foo-bar".toList, job := "application-legacy".toList, inst := "123".toList })
      = some { appid := "foo-bar".toList, job := "application-legacy".toList,
               inst := "123".toList } :=
  parseUnit_unitName_roundtrip
    { appid := "foo-bar".toList, job := "application-legacy".toList, inst := "123".toList }
    (by decide) (by decide) (by decide) (by decide) (by decide)

/-! ## C2: the names stripped from the shipped environment -/

theorem countP_removeEnv_le (n r : Str) (env : Env) :
    (removeEnv r env).countP (fun e => e.1 == n) ≤ env.countP (fun e => e.1 == n) :=
  (List.eraseP_sublist env).countP_le _

theorem countP_eraseP_self (p : Str × Str → Bool) (env : Env) :
    (env.eraseP p).countP p = env.countP p - 1 := by
  induction env with
  | nil => rfl
  | cons x xs ih =>
    by_cases hx : p x = true
    · simp [List.eraseP_cons, hx, List.countP_cons]
    · simp [List.eraseP_cons, hx, List.countP_cons, ih]

theorem countP_foldl_removeEnv_le (n : Str) (names : List Str) :
    ∀ env : Env, (names.foldl (fun env rmenv => removeEnv rmenv env) env).countP (fun e => e.1 == n)
      ≤ env.countP (fun e => e.1 == n) := by
  induction names with
  | nil => intro env; exact Nat.le_refl _
  | cons r rs ih =>
    intro env
    exact Nat.le_trans (ih (removeEnv r env)) (countP_removeEnv_le n r env)

theorem countP_foldl_removeEnv_zero (n : Str) (names : List Str) :
    ∀ env : Env, n ∈ names → env.countP (fun e => e.1 == n) ≤ 1 →
      (names.foldl (fun env rmenv => removeEnv rmenv env) env).countP (fun e => e.1 == n) = 0 := by
  induction names with
  | nil => intro env hn; cases hn
  | cons r rs ih =>
    intro env hn hle
    by_cases hr : n = r
    · subst hr
      have h0 : (removeEnv n env).countP (fun e => e.1 == n) = 0 := by
        unfold removeEnv
        rw [countP_eraseP_self]
        omega
      have := countP_foldl_removeEnv_le n rs (removeEnv n env)
      simp only [List.foldl_cons]
      omega
    · have hmem : n ∈ rs := by
        rcases List.mem_cons.mp hn with h | h
        · exact absurd h hr
        · exact h
      exact ih (removeEnv r env) hmem (Nat.le_trans (countP_removeEnv_le n r env) hle)

/-- A name of the clean-up list that heads at most one entry of the
environment heads no entry of the cleaned environment. -/
theorem cleanEnv_free (n : Str) (env : Env) (hn : n ∈ rmenvs)
    (huniq : env.countP (fun e => e.1 == n) ≤ 1) : ∀ e ∈ cleanEnv env, e.1 ≠ n := by
  intro e he heq
  have h0 := countP_foldl_removeEnv_zero n rmenvs env hn huniq
  have hpos : 0 < (cleanEnv env).countP (fun e => e.1 == n) :=
    List.countP_pos_iff.mpr ⟨e, he, by simp [heq]⟩
  unfold cleanEnv at hpos
  omega

/-- The request of `launch` carries the rendering of the cleaned environment as
its `Environment` property. -/
theorem buildRequest_environment (w : World) (a : LaunchArgs) (env : Env) :
    ("Environment".toList, PropValue.strings (environmentProperty (cleanEnv env)))
      ∈ (buildRequest w a env).properties := by
  simp [buildRequest]

theorem launch_sends (w : World) (a : LaunchArgs) (env : Env) (hne : a.appId.empty = false)
    (henv : launchEnv w a = some env) :
    Action.startTransientUnit (buildRequest w a env) ∈ launch w a := by
  simp [launch, hne, henv]

/-- C2, counterexample: with a base environment that has the single entry
`APP_LAUNCHER_PID=1` besides `APP_EXEC`, `launch` appends its own
`APP_LAUNCHER_PID`, the clean-up erases the first of the two, and the request
ships `APP_LAUNCHER_PID=4242` in its `Environment` property. -/
theorem launch_ships_launcher_pid_counterexample :
    launch sampleWorld sampleArgsWithPid =
      [Action.handshakeStart "foo".toList "1".toList 1, Action.handshakeWait,
       Action.startTransientUnit
        { name := "ubuntu-app-launch--application-legacy--foo--1.service".toList
          mode := "replace".toList
          properties :=
            [("ExecStart".toList, PropValue.execStart "foo".toList ["foo".toList] false),
             ("RemainAfterExit".toList, PropValue.boolean false),
             ("Type".toList, PropValue.string "oneshot".toList),
             ("Environment".toList,
               PropValue.strings ["APP_ID=foo".toList, "APP_LAUNCHER_PID=4242".toList,
                 "DISPLAY=:0".toList, "MIR_SOCKET=/run/mir_socket".toList])]
          aux := [] }] := by
  decide

/-- C2, as amended: when `launch` sends a request, a name of the clean-up list
that occurs at most once in the environment assembled from the base
environment and the process environment is the name of no entry shipped in the
`Environment` property of the request. -/
theorem launch_environment_stripped (w : World) (a : LaunchArgs) (env : Env) (n : Str)
    (hne : a.appId.empty = false) (henv : launchEnv w a = some env) (hn : n ∈ rmenvs)
    (huniq : env.countP (fun e => e.1 == n) ≤ 1) :
    Action.startTransientUnit (buildRequest w a env) ∈ launch w a ∧
      ("Environment".toList,
          PropValue.strings ((shippedEntries (cleanEnv env)).map
            (fun envvar => envvar.1 ++ "=".toList ++ envvar.2)))
        ∈ (buildRequest w a env).properties ∧
      ∀ e ∈ shippedEntries (cleanEnv env), e.1 ≠ n := by
  refine ⟨launch_sends w a env hne henv, buildRequest_environment w a env, ?_⟩
  intro e he
  exact cleanEnv_free n env hn huniq e (List.mem_of_mem_filter he)

/-- C2, witness: the sample launch assembles an environment with one `APP_DIR`
entry, and no shipped entry is named `APP_DIR`. -/
theorem launch_environment_stripped_witness :
    Action.startTransientUnit (buildRequest sampleWorld sampleArgs sampleEnv)
        ∈ launch sampleWorld sampleArgs ∧
      ("Environment".toList,
          PropValue.strings ((shippedEntries (cleanEnv sampleEnv)).map
            (fun envvar => envvar.1 ++ "=".toList ++ envvar.2)))
        ∈ (buildRequest sampleWorld sampleArgs sampleEnv).properties ∧
      ∀ e ∈ shippedEntries (cleanEnv sampleEnv), e.1 ≠ "APP_DIR".toList :=
  launch_environment_stripped sampleWorld sampleArgs sampleEnv "APP_DIR".toList (by decide)
    (by decide) (by decide) (by decide)

/-! ## C3, C4: announcements of new units -/

theorem mem_keys_of_any {m : UnitMap} {info : UnitInfo}
    (h : m.any (fun e => e.1 == info) = true) : info ∈ m.map Prod.fst := by
  obtain ⟨e, he, heq⟩ := List.any_eq_true.mp h
  have : e.1 = info := by simpa using heq
  exact List.mem_map.mpr ⟨e, he, this⟩

theorem any_of_mem_keys {m : UnitMap} {info : UnitInfo} (h : info ∈ m.map Prod.fst) :
    m.any (fun e => e.1 == info) = true := by
  obtain ⟨e, he, heq⟩ := List.mem_map.mp h
  exact List.any_eq_true.mpr ⟨e, he, by simp [heq]⟩

/-- An insertion is refused exactly for a key of the map. -/
theorem mapInsert_eq_none_iff (lt : UnitInfo → UnitInfo → Bool) (info : UnitInfo)
    (data : Option UnitData) (m : UnitMap) :
    mapInsert lt info data m = none ↔ info ∈ m.map Prod.fst := by
  unfold mapInsert
  constructor
  · intro h
    split at h
    · rename_i hany
      exact mem_keys_of_any hany
    · cases h
  · intro h
    rw [if_pos (any_of_mem_keys h)]

/-- With the key already in the map, `unitNew` throws and the map is the one
it was called with. -/
theorem unitNew_of_present (lt : UnitInfo → UnitInfo → Bool) (getUnit : Str → Option (Option Str))
    (m : UnitMap) (name path : Str) (info : UnitInfo) (hparse : parseUnit name = some info)
    (hkey : info ∈ m.map Prod.fst) :
    unitNew lt getUnit m name path =
      (Except.error (if path = "/".toList then UnitError.jobPathRoot else UnitError.duplicate), m) := by
  unfold unitNew
  by_cases hp : path = "/".toList
  · simp [hp]
  · have hb : (path == "/".toList) = false := by simpa using hp
    simp only [hb, hparse, (mapInsert_eq_none_iff lt info _ m).mpr hkey, if_neg hp]
    rfl

theorem mapInsert_keys_perm {lt : UnitInfo → UnitInfo → Bool} {info : UnitInfo}
    {data : Option UnitData} {m m1 : UnitMap} (h : mapInsert lt info data m = some m1) :
    (m1.map Prod.fst).Perm (info :: m.map Prod.fst) := by
  unfold mapInsert at h
  split at h
  · cases h
  · cases h
    have hm : m.map Prod.fst
        = (m.takeWhile (fun e => lt e.1 info)).map Prod.fst
          ++ (m.dropWhile (fun e => lt e.1 info)).map Prod.fst := by
      rw [← List.map_append, List.takeWhile_append_dropWhile]
    rw [hm, List.map_append, List.map_cons]
    exact List.perm_middle

theorem setUnitPath_keys (info : UnitInfo) (gpath : Str) (m : UnitMap) :
    (setUnitPath info gpath m).map Prod.fst = m.map Prod.fst := by
  unfold setUnitPath
  rw [List.map_map]
  apply List.map_congr_left
  intro e _
  simp only [Function.comp]
  split <;> rfl

/-- The map stays a map through `unitNew`: no key is ever held twice. -/
theorem unitNew_ok (lt : UnitInfo → UnitInfo → Bool) (getUnit : Str → Option (Option Str))
    (m : UnitMap) (name path : Str) (hok : UnitMapOk m) :
    UnitMapOk (unitNew lt getUnit m name path).2 := by
  unfold unitNew
  split
  · exact hok
  · split
    · exact hok
    · rename_i info _
      split
      · exact hok
      · rename_i m1 hins
        have hperm := mapInsert_keys_perm hins
        have hnot : info ∉ m.map Prod.fst := by
          intro hmem
          rw [(mapInsert_eq_none_iff lt info _ m).mpr hmem] at hins
          cases hins
        have h1 : UnitMapOk m1 := by
          unfold UnitMapOk at hok ⊢
          exact hperm.nodup_iff.mpr (List.nodup_cons.mpr ⟨hnot, hok⟩)
        split
        · exact h1
        · exact h1
        · unfold UnitMapOk
          rw [setUnitPath_keys]
          exact h1

/-- C3, the code at the failing input: on an empty map, the announcement of
`sampleUnitName` with job path `/job/1` whose `GetUnit` call fails leaves the
key in the map, with an empty unit path, and emits no `jobStarted`. From then
on a new announcement of the name, with `GetUnit` answering, is dropped as a
duplicate without a `jobStarted`, and the removal of the unit emits a
`jobStopped` that no `jobStarted` preceded. -/
theorem onUnitNew_getUnit_failure (lt : UnitInfo → UnitInfo → Bool) :
    onUnitNew lt (fun _ => none) [] sampleUnitName "/job/1".toList = (sampleStuckMap, []) ∧
      onUnitNew lt (fun _ => some (some "/unit/1".toList)) sampleStuckMap sampleUnitName
        "/job/1".toList = (sampleStuckMap, []) ∧
      onUnitRemoved sampleStuckMap sampleUnitName "/job/1".toList =
        ([], [Event.jobStopped "application-legacy".toList "foo".toList "1".toList]) := by
  have hparse : parseUnit sampleUnitName = some sampleUnitInfo := by decide
  refine ⟨?_, ?_, by decide⟩
  · simp [onUnitNew, unitNew, hparse, mapInsert, sampleStuckMap]
  · simp [onUnitNew, unitNew, hparse, mapInsert, sampleStuckMap]

/-- C4, counterexample: with the key of `sampleUnitName` in the map and the job
path `/`, `unitNew` fails with the job-path error, not with the duplicate
error. -/
theorem unitNew_present_root_path_counterexample :
    sampleUnitInfo ∈ sampleUnitMap.map Prod.fst ∧
      parseUnit sampleUnitName = some sampleUnitInfo ∧
      unitNew (fun _ _ => false) (fun _ => some none) sampleUnitMap sampleUnitName "/".toList
        = (Except.error UnitError.jobPathRoot, sampleUnitMap) ∧
      (unitNew (fun _ _ => false) (fun _ => some none) sampleUnitMap sampleUnitName
        "/".toList).1 ≠ Except.error UnitError.duplicate := by
  decide

/-- C4, as amended: for every unit map and every unit name whose parsed
`UnitInfo` is already a key of the map, `unitNew` fails, with the duplicate
error when the job path is not `/` and with the job-path error when it is, and
leaves the map unchanged: the value stored under the key is the one that was
there, and the map still holds no key twice. -/
theorem unitNew_duplicate (lt : UnitInfo → UnitInfo → Bool) (getUnit : Str → Option (Option Str))
    (m : UnitMap) (name path : Str) (info : UnitInfo) (hok : UnitMapOk m)
    (hparse : parseUnit name = some info) (hkey : info ∈ m.map Prod.fst) :
    (unitNew lt getUnit m name path).1 =
        Except.error (if path = "/".toList then UnitError.jobPathRoot else UnitError.duplicate) ∧
      (unitNew lt getUnit m name path).2 = m ∧
      mapFind (unitNew lt getUnit m name path).2 info = mapFind m info ∧
      UnitMapOk (unitNew lt getUnit m name path).2 := by
  refine ⟨?_, ?_, ?_, unitNew_ok lt getUnit m name path hok⟩
  all_goals rw [unitNew_of_present lt getUnit m name path info hparse hkey]

/-- C4, witness: a second announcement of `sampleUnitName` with another job
path fails as a duplicate and leaves the entry as it was. -/
theorem unitNew_duplicate_witness :
    (unitNew (fun _ _ => false) (fun _ => some (some "/unit/2".toList)) sampleUnitMap
        sampleUnitName "/job/2".toList).1 =
        Except.error (if "/job/2".toList = "/".toList then UnitError.jobPathRoot
          else UnitError.duplicate) ∧
      (unitNew (fun _ _ => false) (fun _ => some (some "/unit/2".toList)) sampleUnitMap
        sampleUnitName "/job/2".toList).2 = sampleUnitMap ∧
      mapFind (unitNew (fun _ _ => false) (fun _ => some (some "/unit/2".toList)) sampleUnitMap
        sampleUnitName "/job/2".toList).2 sampleUnitInfo = mapFind sampleUnitMap sampleUnitInfo ∧
      UnitMapOk (unitNew (fun _ _ => false) (fun _ => some (some "/unit/2".toList)) sampleUnitMap
        sampleUnitName "/job/2".toList).2 :=
  unitNew_duplicate (fun _ _ => false) (fun _ => some (some "/unit/2".toList)) sampleUnitMap
    sampleUnitName "/job/2".toList sampleUnitInfo (by decide) (by decide) (by decide)

/-! ## C5: removal of units -/

/-- In a map, erasing the entry of a key keeps exactly the entries of the
other keys. -/
theorem eraseP_key_eq_filter (info : UnitInfo) :
    ∀ m : UnitMap, UnitMapOk m →
      m.eraseP (fun e => e.1 == info) = m.filter (fun e => !(e.1 == info)) := by
  intro m
  induction m with
  | nil => intro _; rfl
  | cons e es ih =>
    intro hok
    have hok2 : (e.1 :: es.map Prod.fst).Nodup := hok
    obtain ⟨hnot, hes⟩ := List.nodup_cons.mp hok2
    by_cases he : e.1 = info
    · have hall : ∀ x ∈ es, (!(x.1 == info)) = true := by
        intro x hx
        have : x.1 ≠ info := by
          intro hxe
          exact hnot (by rw [he, ← hxe]; exact List.mem_map_of_mem Prod.fst hx)
        simpa using this
      simp [List.eraseP_cons, he, List.filter_cons, List.filter_eq_self.mpr hall]
    · have hb : (e.1 == info) = false := by simpa using he
      simp [List.eraseP_cons, List.filter_cons, hb, ih hes]

theorem mapFind_filter_self (info : UnitInfo) (m : UnitMap) :
    mapFind (m.filter (fun e => !(e.1 == info))) info = none := by
  unfold mapFind
  have : (m.filter (fun e => !(e.1 == info))).find? (fun e => e.1 == info) = none := by
    apply List.find?_eq_none.mpr
    intro x hx
    have := (List.mem_filter.mp hx).2
    simpa using this
  rw [this]
  rfl

theorem mapFind_filter_other (info k : UnitInfo) (hk : k ≠ info) :
    ∀ m : UnitMap, mapFind (m.filter (fun e => !(e.1 == info))) k = mapFind m k := by
  intro m
  induction m with
  | nil => rfl
  | cons e es ih =>
    unfold mapFind at ih ⊢
    by_cases he : e.1 = info
    · have hne : (e.1 == k) = false := by
        have : e.1 ≠ k := by rw [he]; exact fun h => hk h.symm
        simpa using this
      simp only [List.filter_cons, he, beq_self_eq_true, Bool.not_true, Bool.false_eq_true,
        if_false, List.find?_cons]
      rw [← he, hne]
      simpa [he] using ih
    · have hb : (e.1 == info) = false := by simpa using he
      simp only [List.filter_cons, hb, Bool.not_false, if_true, List.find?_cons]
      cases hek : (e.1 == k)
      · simpa using ih
      · rfl

/-- C5: for every unit map and every unit name that parses, `unitRemoved`
returns. When the parsed key is in the map, the new map has the entries of the
other keys, unchanged and in order, and none for the key, and `jobStopped` is
emitted once with the parsed job, appid and instance; when the key is not in
the map, nothing is emitted and the map is unchanged. -/
theorem unitRemoved_spec (m : UnitMap) (name path : Str) (info : UnitInfo) (hok : UnitMapOk m)
    (hparse : parseUnit name = some info) :
    (info ∈ m.map Prod.fst →
        unitRemoved m name path =
          some (m.filter (fun e => !(e.1 == info)),
            [Event.jobStopped info.job info.appid info.inst]) ∧
        mapFind (m.filter (fun e => !(e.1 == info))) info = none ∧
        ∀ k, k ≠ info → mapFind (m.filter (fun e => !(e.1 == info))) k = mapFind m k) ∧
      (info ∉ m.map Prod.fst → unitRemoved m name path = some (m, [])) := by
  constructor
  · intro hkey
    refine ⟨?_, mapFind_filter_self info m, fun k hk => mapFind_filter_other info k hk m⟩
    unfold unitRemoved
    simp only [hparse, any_of_mem_keys hkey, if_true, eraseP_key_eq_filter info m hok]
  · intro hkey
    have hany : m.any (fun e => e.1 == info) = false := by
      cases h : m.any (fun e => e.1 == info)
      · rfl
      · exact absurd (mem_keys_of_any h) hkey
    unfold unitRemoved
    simp only [hparse, hany]
    rfl

/-- C5, witness: removing `sampleUnitName` from the map that holds it alone. -/
theorem unitRemoved_spec_witness :
    (sampleUnitInfo ∈ sampleUnitMap.map Prod.fst →
        unitRemoved sampleUnitMap sampleUnitName "/job/1".toList =
          some (sampleUnitMap.filter (fun e => !(e.1 == sampleUnitInfo)),
            [Event.jobStopped sampleUnitInfo.job sampleUnitInfo.appid sampleUnitInfo.inst]) ∧
        mapFind (sampleUnitMap.filter (fun e => !(e.1 == sampleUnitInfo))) sampleUnitInfo = none ∧
        ∀ k, k ≠ sampleUnitInfo →
          mapFind (sampleUnitMap.filter (fun e => !(e.1 == sampleUnitInfo))) k
            = mapFind sampleUnitMap k) ∧
      (sampleUnitInfo ∉ sampleUnitMap.map Prod.fst →
        unitRemoved sampleUnitMap sampleUnitName "/job/1".toList = some (sampleUnitMap, [])) :=
  unitRemoved_spec sampleUnitMap sampleUnitName "/job/1".toList sampleUnitInfo (by decide)
    (by decide)

/-! ## C6: failure dispatch -/

/-- What the `PropertiesChanged` handler does once the search loop has found
the entry of `info`: nothing without a `Result` entry or with `success`,
otherwise the reset call and one `jobFailed`, `START_FAILURE` for `exit-code`
and `CRASH` for any other value. -/
theorem onPropertiesChanged_of_found (noResetUnits : Bool) (m : UnitMap) (path : Str)
    (changed : Str → Option Variant) (info : UnitInfo)
    (hfound : findUnitByPath path m = some (some info)) :
    onPropertiesChanged noResetUnits m path changed =
      some (match changed "Result".toList with
        | none => []
        | some (Variant.string s) =>
          if s = "success".toList then []
          else resetUnit noResetUnits info ++
            [Event.jobFailed info.job info.appid info.inst
              (if s = "exit-code".toList then FailureType.START_FAILURE else FailureType.CRASH)]
        | some Variant.other =>
          resetUnit noResetUnits info ++
            [Event.jobFailed info.job info.appid info.inst FailureType.CRASH]) := by
  unfold onPropertiesChanged
  rw [hfound]
  cases hres : changed "Result".toList with
  | none => rfl
  | some v =>
    cases v with
    | string s =>
      simp only [beq_iff_eq, Option.some.injEq]
      exact (apply_ite some _ _ _).symm
    | other => simp

/-- A signal whose path is the unit path of no entry, in a map without null
data, emits nothing. -/
theorem onPropertiesChanged_of_not_found (noResetUnits : Bool) (m : UnitMap) (path : Str)
    (changed : Str → Option Variant) (hfound : findUnitByPath path m = some none) :
    onPropertiesChanged noResetUnits m path changed = some [] := by
  unfold onPropertiesChanged
  rw [hfound]

/-- C6, the code at the failing input: in a map whose first entry has null
data, as `unitPath` leaves one for an unknown unit, and whose second entry has
the unit path `/unit/1`, a `PropertiesChanged` signal for `/unit/1` with
`Result` equal to `exit-code` makes the search loop dereference the null
pointer; no `jobFailed` is emitted. -/
theorem onPropertiesChanged_null_data (noResetUnits : Bool) (k1 k2 : UnitInfo) :
    onPropertiesChanged noResetUnits
        [(k1, none), (k2, some { jobpath := "/job/1".toList, unitpath := "/unit/1".toList })]
        "/unit/1".toList (resultOnly (Variant.string "exit-code".toList))
      = none := by
  rfl

/-! ## C7, C8, C9: the field codes -/

theorem splitBy_ne_nil (p : Char → Bool) (s : Str) : splitBy p s ≠ [] := by
  cases s with
  | nil => simp [splitBy]
  | cons c cs =>
    unfold splitBy
    split
    · simp
    · split <;> simp

theorem splitBy_cons_of_not (p : Char → Bool) (c : Char) (cs : Str) (hc : p c = false) :
    ∃ piece pieces, splitBy p cs = piece :: pieces ∧
      splitBy p (c :: cs) = (c :: piece) :: pieces := by
  cases h : splitBy p cs with
  | nil => exact absurd h (splitBy_ne_nil p cs)
  | cons piece pieces =>
    refine ⟨piece, pieces, rfl, ?_⟩
    rw [splitBy]
    simp [hc, h]

/-- Splitting goes through a separator: the pieces before it, then the pieces
after it. -/
theorem splitBy_append_sep (p : Char → Bool) (c : Char) (hc : p c = true) (b : Str) :
    ∀ a : Str, splitBy p (a ++ c :: b) = splitBy p a ++ splitBy p b := by
  intro a
  induction a with
  | nil => simp [splitBy, hc]
  | cons x xs ih =>
    by_cases hx : p x = true
    · simp [splitBy, hx, ih]
    · have hx2 : p x = false := by simpa using hx
      obtain ⟨piece, pieces, h1, h2⟩ := splitBy_cons_of_not p x xs hx2
      rw [h2]
      show splitBy p (x :: (xs ++ c :: b)) = _
      rw [splitBy]
      simp [hx2, ih, h1]

theorem untilNull_map_some (l : List Str) : untilNull (l.map some) = l := by
  induction l with
  | nil => rfl
  | cons x xs ih => simp [untilNull, ih]

theorem intercalate_cons_cons (sep x y : Str) (l : List Str) :
    sep.intercalate (x :: y :: l) = x ++ sep ++ sep.intercalate (y :: l) := by
  simp [List.intercalate, List.intersperse]

theorem intercalate_append (sep : Str) (r : List Str) (hr : r ≠ []) :
    ∀ l : List Str, l ≠ [] →
      sep.intercalate (l ++ r) = sep.intercalate l ++ sep ++ sep.intercalate r := by
  intro l
  induction l with
  | nil => intro h; exact absurd rfl h
  | cons x xs ih =>
    intro _
    cases xs with
    | nil =>
      cases r with
      | nil => exact absurd rfl hr
      | cons y ys =>
        rw [List.singleton_append, intercalate_cons_cons]
        simp [List.intercalate, List.intersperse]
    | cons y ys =>
      have := ih (by simp)
      rw [List.cons_append, List.cons_append, intercalate_cons_cons, ← List.cons_append, this,
        intercalate_cons_cons]
      simp

/-- With a URI list, every pointer that a piece appends is a string. -/
theorem expandCode_some (uris piece : Str) :
    ∃ l : List Str, l ≠ [] ∧ expandCode (some uris) piece = l.map some := by
  cases piece with
  | nil => exact ⟨["%".toList], by simp, rfl⟩
  | cons c skipchar =>
    simp only [expandCode]
    split_ifs
    · exact ⟨[skipchar], by simp, rfl⟩
    · exact ⟨[skipchar], by simp, rfl⟩
    · exact ⟨[skipchar], by simp, rfl⟩
    · exact ⟨[uris, skipchar], by simp, rfl⟩
    · exact ⟨[uris, skipchar], by simp, rfl⟩
    · exact ⟨[uris.takeWhile (fun x => x != ' '), skipchar], by simp, rfl⟩
    · exact ⟨[skipchar], by simp, rfl⟩

theorem flatMap_expandCode_some (uris : Str) (pieces : List Str) :
    ∃ l : List Str, pieces.flatMap (expandCode (some uris)) = l.map some := by
  induction pieces with
  | nil => exact ⟨[], rfl⟩
  | cons x xs ih =>
    obtain ⟨l, hl⟩ := ih
    obtain ⟨l1, _, hl1⟩ := expandCode_some uris x
    exact ⟨l1 ++ l, by simp [List.flatMap_cons, hl, hl1]⟩

theorem outarray_some (uris : Str) (pieces : List Str) (hp : pieces ≠ []) :
    ∃ l : List Str, l ≠ [] ∧ outarray (some uris) pieces = l.map some := by
  cases pieces with
  | nil => exact absurd rfl hp
  | cons first rest =>
    obtain ⟨l, hl⟩ := flatMap_expandCode_some uris rest
    exact ⟨first :: l, by simp, by simp [outarray, hl]⟩

theorem handle_codes_of_pieces (execline : Str) (uri_list : Option Str) (a b : Str)
    (rest : List Str) (h : g_strsplit execline = a :: b :: rest) :
    handle_codes execline uri_list = some (g_strjoinv (outarray uri_list (a :: b :: rest))) := by
  unfold handle_codes
  rw [h]

theorem expandText_eq_intercalate (uris text : Str) (l : List Str)
    (h : outarray (some uris) (splitBy (fun c => c == '%') text) = l.map some) :
    expandText (some uris) text = " ".toList.intercalate l := by
  unfold expandText g_strjoinv
  rw [h, untilNull_map_some]

/-- A code whose case appends a string `sub` and the rest of its piece is
replaced by `sub` between two spaces; the text before and the text after the
code are expanded on their own. -/
theorem handle_codes_subst (pre post uris sub : Str) (x : Char) (hx : (x == '%') = false)
    (hcode : ∀ skip, expandCode (some uris) (x :: skip) = [some sub, some skip]) :
    handle_codes (pre ++ '%' :: x :: post) (some uris) =
      some (expandText (some uris) pre ++ " ".toList ++ sub ++ " ".toList
        ++ expandText (some uris) post) := by
  obtain ⟨p0, ps, hpost, hxpost⟩ := splitBy_cons_of_not (fun c => c == '%') x post hx
  obtain ⟨lpre, hlpre0, hlpre⟩ :=
    outarray_some uris (splitBy (fun c => c == '%') pre) (splitBy_ne_nil _ pre)
  obtain ⟨lpost, hlpost0, hlpost⟩ :=
    outarray_some uris (splitBy (fun c => c == '%') post) (splitBy_ne_nil _ post)
  have hsplit : g_strsplit (pre ++ '%' :: x :: post)
      = splitBy (fun c => c == '%') pre ++ (x :: p0) :: ps := by
    unfold g_strsplit
    rw [if_neg (by simp), splitBy_append_sep _ '%' (by simp), hxpost]
  have harr : outarray (some uris) (splitBy (fun c => c == '%') pre ++ (x :: p0) :: ps)
      = (lpre ++ sub :: lpost).map some := by
    cases hq : splitBy (fun c => c == '%') pre with
    | nil => exact absurd hq (splitBy_ne_nil _ pre)
    | cons q qs =>
      rw [hq] at hlpre
      rw [hpost] at hlpost
      simp only [outarray] at hlpre hlpost
      simp only [List.cons_append, outarray, List.flatMap_append, List.flatMap_cons, hcode,
        List.map_append, List.map_cons, ← hlpre, ← hlpost]
      simp
  cases hq : splitBy (fun c => c == '%') pre with
  | nil => exact absurd hq (splitBy_ne_nil _ pre)
  | cons q qs =>
    cases htail : qs ++ (x :: p0) :: ps with
    | nil => simp at htail
    | cons b rest =>
      have hsplit2 : g_strsplit (pre ++ '%' :: x :: post) = q :: b :: rest := by
        rw [hsplit, hq, List.cons_append, htail]
      rw [handle_codes_of_pieces _ _ q b rest hsplit2, ← hsplit2, hsplit, harr]
      unfold g_strjoinv
      rw [untilNull_map_some, intercalate_append _ _ (by simp) _ hlpre0,
        show sub :: lpost = [sub] ++ lpost from rfl,
        intercalate_append _ _ hlpost0 _ (by simp),
        expandText_eq_intercalate uris pre lpre hlpre,
        expandText_eq_intercalate uris post lpost hlpost]
      simp [List.intercalate, List.append_assoc]

theorem splitBy_singleton (p : Char → Bool) :
    ∀ (s x : Str), splitBy p s = [x] → x = s := by
  intro s
  induction s with
  | nil =>
    intro x h
    simpa [splitBy] using h.symm
  | cons c cs ih =>
    intro x h
    by_cases hc : p c = true
    · simp [splitBy, hc] at h
      exact absurd h.2 (splitBy_ne_nil p cs)
    · have hc2 : p c = false := by simpa using hc
      obtain ⟨piece, pieces, h1, h2⟩ := splitBy_cons_of_not p c cs hc2
      rw [h2] at h
      simp at h
      obtain ⟨hx, hnil⟩ := h
      rw [hnil] at h1
      rw [← hx, ih piece h1]

/-- On a non-empty Exec line `handle_codes` returns, and returns the expansion
of the whole line. -/
theorem handle_codes_eq_expandText (execline : Str) (uri_list : Option Str)
    (hne : execline ≠ []) : handle_codes execline uri_list = some (expandText uri_list execline) := by
  have hsplit : g_strsplit execline = splitBy (fun c => c == '%') execline := by
    unfold g_strsplit
    rw [if_neg (by simpa using hne)]
  unfold handle_codes expandText
  rw [hsplit]
  cases h : splitBy (fun c => c == '%') execline with
  | nil => exact absurd h (splitBy_ne_nil _ execline)
  | cons a rest =>
    cases rest with
    | nil =>
      have := splitBy_singleton _ execline a h
      simp [outarray, g_strjoinv, untilNull, List.intercalate, this]
    | cons b rest2 => rfl

theorem takeWhile_ne_of_not_contains (uris : Str) (h : (!uris.contains ' ') = true) :
    uris.takeWhile (fun x => x != ' ') = uris := by
  apply List.takeWhile_eq_self_iff.mpr
  intro c hc
  have hne : c ≠ ' ' := by
    rintro rfl
    simp at h
    exact h hc
  simpa using hne

/-- The case `%u` appends the part of the URI list before its first space. -/
theorem expandCode_u (uris skip : Str) :
    expandCode (some uris) ('u' :: skip) = [some (uris.takeWhile (fun x => x != ' ')), some skip] := by
  simp only [expandCode]
  rw [if_neg (by decide), if_neg (by decide), if_neg (by decide), if_neg (by decide),
    if_pos (by decide)]
  split
  · rename_i h
    rw [takeWhile_ne_of_not_contains uris h]
  · rfl

/-- The case `%U` appends the whole URI list. -/
theorem expandCode_U (uris skip : Str) :
    expandCode (some uris) ('U' :: skip) = [some uris, some skip] := by
  simp only [expandCode]
  rw [if_neg (by decide), if_neg (by decide), if_neg (by decide), if_pos (by decide)]

/-- The words of two texts joined by a space are the words of the first, then
those of the second. -/
theorem wsTokens_append_space (a b : Str) :
    wsTokens (a ++ " ".toList ++ b) = wsTokens a ++ wsTokens b := by
  unfold wsTokens
  have : a ++ " ".toList ++ b = a ++ ' ' :: b := by simp
  rw [this, splitBy_append_sep _ ' ' (by decide), List.filter_append]

/-- C7: in every Exec template, with every URI list, a code `%u` is replaced by
the part of the list before its first space, set between two spaces, and by
nothing of the rest of the list; the text before and the text after the code
are expanded on their own. For the template `viewer %u` and the URIs `a b` the
words of the result are `viewer` and `a`. -/
theorem handle_codes_first_uri (pre post uris : Str) :
    handle_codes (pre ++ "%u".toList ++ post) (some uris) =
        some (expandText (some uris) pre ++ " ".toList ++ uris.takeWhile (fun x => x != ' ')
          ++ " ".toList ++ expandText (some uris) post) ∧
      (handle_codes (pre ++ "%u".toList ++ post) (some uris)).map wsTokens =
        some (wsTokens (expandText (some uris) pre) ++ wsTokens (uris.takeWhile (fun x => x != ' '))
          ++ wsTokens (expandText (some uris) post)) ∧
      (handle_codes "viewer %u".toList (some "a b".toList)).map wsTokens =
        some ["viewer".toList, "a".toList] := by
  have h : handle_codes (pre ++ "%u".toList ++ post) (some uris) =
      some (expandText (some uris) pre ++ " ".toList ++ uris.takeWhile (fun x => x != ' ')
        ++ " ".toList ++ expandText (some uris) post) := by
    have := handle_codes_subst pre post uris (uris.takeWhile (fun x => x != ' ')) 'u' (by decide)
      (expandCode_u uris)
    simpa using this
  refine ⟨h, ?_, by decide⟩
  rw [h, Option.map_some', wsTokens_append_space, wsTokens_append_space]

/-- C8: in every Exec template, with every URI list, a code `%U` is replaced by
the whole list, set between two spaces, so that the words of the result are the
words of the expanded text before the code, then every URI of the list in
order, then the words of the expanded text after the code. For the template
`viewer %U` and the URIs `a b` the words of the result are `viewer`, `a` and
`b`. -/
theorem handle_codes_all_uris (pre post uris : Str) :
    handle_codes (pre ++ "%U".toList ++ post) (some uris) =
        some (expandText (some uris) pre ++ " ".toList ++ uris ++ " ".toList
          ++ expandText (some uris) post) ∧
      (handle_codes (pre ++ "%U".toList ++ post) (some uris)).map wsTokens =
        some (wsTokens (expandText (some uris) pre) ++ wsTokens uris
          ++ wsTokens (expandText (some uris) post)) ∧
      (handle_codes "viewer %U".toList (some "a b".toList)).map wsTokens =
        some ["viewer".toList, "a".toList, "b".toList] := by
  have h : handle_codes (pre ++ "%U".toList ++ post) (some uris) =
      some (expandText (some uris) pre ++ " ".toList ++ uris ++ " ".toList
        ++ expandText (some uris) post) := by
    have := handle_codes_subst pre post uris uris 'U' (by decide) (expandCode_U uris)
    simpa using this
  refine ⟨h, ?_, by decide⟩
  rw [h, Option.map_some', wsTokens_append_space, wsTokens_append_space]

/-- C9, the code at the failing inputs: the template `echo 100%%`, which ends in
`%%`, gives two `%` characters; in `a%%b` the letter after `%%` is read as an
unknown code and dropped; in `a%%u` it is read as the code `%u` and replaced by
the URI. -/
theorem handle_codes_percent_percent :
    handle_codes "echo 100%%".toList (some "file:///x".toList) = some "echo 100 % %".toList ∧
      handle_codes "a%%b".toList (some "file:///x".toList) = some "a % ".toList ∧
      handle_codes "a%%u".toList (some "file:///x".toList) = some "a % file:///x ".toList := by
  decide

/-! ## C10: the command of the unit -/

theorem findEnv_eq_lookup (name : Str) (env : Env) :
    findEnv name env = (env.lookup name).getD [] := by
  unfold findEnv
  induction env with
  | nil => rfl
  | cons e es ih =>
    obtain ⟨k, v⟩ := e
    by_cases h : k = name
    · subst h
      simp [List.find?_cons, List.lookup_cons]
    · have h1 : (k == name) = false := by simpa using h
      have h2 : (name == k) = false := by simpa using fun h3 : name = k => h h3.symm
      simpa [List.find?_cons, List.lookup_cons, h1, h2] using ih

/-- C10: for every environment list in which the first `APP_EXEC` entry has a
non-empty value, `parseExec` returns the tokens (the non-null elements) that
the Exec parser produces for the values of `APP_EXEC` and `APP_URIS`, with
`aa-exec`, `-p` and the policy in front of them when the first
`APP_EXEC_POLICY` entry has a value that is non-empty and different from
`unconfined`, and with nothing in front of them otherwise. -/
theorem parseExec_policy (desktop_exec_parse : Str → Str → List (Option Str)) (env : Env)
    (exec : Str) (hexec : env.lookup "APP_EXEC".toList = some exec) (hne : exec ≠ []) :
    parseExec desktop_exec_parse env =
      match env.lookup "APP_EXEC_POLICY".toList with
      | some policy =>
        if policy ≠ [] ∧ policy ≠ "unconfined".toList then
          ["aa-exec".toList, "-p".toList, policy]
            ++ (desktop_exec_parse exec ((env.lookup "APP_URIS".toList).getD [])).filterMap id
        else (desktop_exec_parse exec ((env.lookup "APP_URIS".toList).getD [])).filterMap id
      | none => (desktop_exec_parse exec ((env.lookup "APP_URIS".toList).getD [])).filterMap id := by
  unfold parseExec
  simp only [findEnv_eq_lookup, hexec, Option.getD_some]
  have hemp : exec.isEmpty = false := by
    cases exec with
    | nil => exact absurd rfl hne
    | cons c cs => rfl
  simp only [hemp, Bool.false_eq_true, if_false]
  cases hpol : env.lookup "APP_EXEC_POLICY".toList with
  | none => simp
  | some policy =>
    simp only [Option.getD_some]
    by_cases h1 : policy = []
    · simp [h1]
    · by_cases h2 : policy = "unconfined".toList
      · simp [h2]
      · have hb : (policy != "unconfined".toList) = true := by simpa using h2
        have hi : policy.isEmpty = false := by
          cases policy with
          | nil => exact absurd rfl h1
          | cons c cs => rfl
        have hc : policy ≠ [] ∧ policy ≠ "unconfined".toList := ⟨h1, h2⟩
        rw [if_pos hc]
        simp [hi, hb]
        intro h3
        exact absurd h3 h2

/-- C10, witness: with the policy `foo_profile` the command `foo --bar` is run
under `aa-exec -p foo_profile`. -/
theorem parseExec_policy_witness :
    parseExec sampleWorld.desktop_exec_parse sampleExecEnv =
      match sampleExecEnv.lookup "APP_EXEC_POLICY".toList with
      | some policy =>
        if policy ≠ [] ∧ policy ≠ "unconfined".toList then
          ["aa-exec".toList, "-p".toList, policy]
            ++ (sampleWorld.desktop_exec_parse "foo --bar".toList
              ((sampleExecEnv.lookup "APP_URIS".toList).getD [])).filterMap id
        else (sampleWorld.desktop_exec_parse "foo --bar".toList
              ((sampleExecEnv.lookup "APP_URIS".toList).getD [])).filterMap id
      | none => (sampleWorld.desktop_exec_parse "foo --bar".toList
              ((sampleExecEnv.lookup "APP_URIS".toList).getD [])).filterMap id :=
  parseExec_policy sampleWorld.desktop_exec_parse sampleExecEnv "foo --bar".toList (by decide)
    (by decide)

/-! ## C11, C12: the names that `parseUnit` accepts -/

theorem matchStar_isSome_of_k {α : Type} (p : Char → Bool) (k : Str → Str → Option α)
    (s acc : Str) (h : (k acc s).isSome = true) : (matchStar p k acc s).isSome = true := by
  cases s with
  | nil => simpa [matchStar] using h
  | cons c cs =>
    unfold matchStar
    split
    · split
      · rfl
      · exact h
    · exact h

/-- The star accepts as soon as the continuation accepts after some run. -/
theorem matchStar_isSome_of_split {α : Type} (p : Char → Bool) (k : Str → Str → Option α) :
    ∀ (a b acc : Str), (∀ c ∈ a, p c = true) → (k (acc ++ a) b).isSome = true →
      (matchStar p k acc (a ++ b)).isSome = true := by
  intro a
  induction a with
  | nil =>
    intro b acc _ hk
    exact matchStar_isSome_of_k p k b acc (by simpa using hk)
  | cons c cs ih =>
    intro b acc hall hk
    have hc : p c = true := hall c (by simp)
    have hrec : (matchStar p k (acc ++ [c]) (cs ++ b)).isSome = true :=
      ih b (acc ++ [c]) (fun x hx => hall x (by simp [hx])) (by simpa using hk)
    show (matchStar p k acc (c :: (cs ++ b))).isSome = true
    unfold matchStar
    rw [if_pos hc]
    split
    · rfl
    · rename_i hnone
      rw [hnone] at hrec
      cases hrec

theorem matchJob_accepts (g1 g2 g3 : Str) (h1 : ∀ c ∈ g1, dotMatches c = true)
    (h2 : ∀ c ∈ g2, dotMatches c = true) (h3 : ∀ c ∈ g3, digitMatches c = true) :
    (matchJob (g1 ++ "--".toList ++ g2 ++ "--".toList ++ g3 ++ ".service".toList)).isSome
      = true := by
  have hinst : ∀ m1 m2, (matchInst m1 m2 (g3 ++ ".service".toList)).isSome = true := by
    intro m1 m2
    unfold matchInst
    apply matchStar_isSome_of_split _ _ g3 _ [] h3
    simp [matchEnd]
  have happ : ∀ m1, (matchAppid m1 (g2 ++ ("--".toList ++ (g3 ++ ".service".toList)))).isSome
      = true := by
    intro m1
    unfold matchAppid
    apply matchStar_isSome_of_split _ _ g2 _ [] h2
    simp only [List.nil_append, matchLit_append]
    exact hinst m1 g2
  have hassoc : g1 ++ "--".toList ++ g2 ++ "--".toList ++ g3 ++ ".service".toList
      = g1 ++ ("--".toList ++ (g2 ++ ("--".toList ++ (g3 ++ ".service".toList)))) := by simp
  rw [hassoc]
  unfold matchJob
  apply matchStar_isSome_of_split _ _ g1 _ [] h1
  simp only [List.nil_append, matchLit_append]
  exact happ g1

/-- The name of every unit whose job and appid have no line terminator and
whose instance is decimal is accepted, whatever it is parsed to. -/
theorem parseUnit_accepts (u : UnitInfo) (h1 : ∀ c ∈ u.job, dotMatches c = true)
    (h2 : ∀ c ∈ u.appid, dotMatches c = true) (h3 : ∀ c ∈ u.inst, digitMatches c = true) :
    (parseUnit (unitName u)).isSome = true := by
  unfold parseUnit unitName
  simp only [List.append_assoc, matchLit_append]
  have := matchJob_accepts u.job u.appid u.inst h1 h2 h3
  simpa [List.append_assoc] using this

/-- The name with an empty job, an empty appid and an empty instance is outside
the reference grammar. -/
theorem not_referenceGrammar_empty : ¬ ReferenceGrammar "ubuntu-app-launch------.service".toList := by
  rintro ⟨u, ⟨hjob, _, _⟩, _, hs⟩
  have h1 : "----.service".toList
      = u.job ++ ("--".toList ++ u.appid ++ "--".toList ++ u.inst ++ ".service".toList) := by
    have h2 : "ubuntu-app-launch--".toList ++ "----.service".toList
        = "ubuntu-app-launch--".toList
          ++ (u.job ++ ("--".toList ++ u.appid ++ "--".toList ++ u.inst ++ ".service".toList)) := by
      simpa [unitName, List.append_assoc] using hs
    exact List.append_cancel_left h2
  cases hj : u.job with
  | nil =>
    rw [hj] at hjob
    revert hjob
    decide
  | cons c cs =>
    rw [hj] at h1 hjob
    have hc : c = '-' := by
      have := congrArg List.head? h1
      simpa using this.symm
    rw [hc] at hjob
    simp [jobGrammar, splitBy] at hjob

/-- C11, counterexample: the name `ubuntu-app-launch------.service` does not
match the reference grammar, and `parseUnit` accepts it, with an empty job, an
empty appid and an empty instance. -/
theorem parseUnit_accepts_empty_parts_counterexample :
    ¬ ReferenceGrammar "ubuntu-app-launch------.service".toList ∧
      parseUnit "ubuntu-app-launch------.service".toList
        = some { appid := [], job := [], inst := [] } :=
  ⟨not_referenceGrammar_empty, by decide⟩

/-- C11, as amended: `parseUnit` accepts a string exactly when it is
`ubuntu-app-launch--<job>--<appid>--<instance>.service` for a possibly empty job
and a possibly empty appid without line terminators and a possibly empty
decimal instance, which is the pattern `unitNaming` of the code, and fails on
every other string. -/
theorem parseUnit_isSome_iff (s : Str) :
    (parseUnit s).isSome = true ↔
      ∃ u : UnitInfo, (∀ c ∈ u.job, dotMatches c = true) ∧ (∀ c ∈ u.appid, dotMatches c = true) ∧
        (∀ c ∈ u.inst, digitMatches c = true) ∧ s = unitName u := by
  constructor
  · intro h
    obtain ⟨u, hu⟩ := Option.isSome_iff_exists.mp h
    obtain ⟨hs, h1, h2, h3⟩ := parseUnit_sound hu
    exact ⟨u, h1, h2, h3, hs⟩
  · rintro ⟨u, h1, h2, h3, rfl⟩
    exact parseUnit_accepts u h1 h2 h3

/-- C12: for every string that `parseUnit` accepts, `unitName` renders the
parsed job, appid and instance back to that string. -/
theorem unitName_parseUnit (s : Str) (u : UnitInfo) (h : parseUnit s = some u) :
    unitName u = s ∧
      s = "ubuntu-app-launch--".toList ++ u.job ++ "--".toList ++ u.appid ++ "--".toList
        ++ u.inst ++ ".service".toList :=
  ⟨(parseUnit_sound h).1.symm, (parseUnit_sound h).1⟩

/-- C12, witness: the sample unit name. -/
theorem unitName_parseUnit_witness :
    unitName sampleUnitInfo = sampleUnitName ∧
      sampleUnitName = "ubuntu-app-launch--".toList ++ sampleUnitInfo.job ++ "--".toList
        ++ sampleUnitInfo.appid ++ "--".toList ++ sampleUnitInfo.inst ++ ".service".toList :=
  unitName_parseUnit sampleUnitName sampleUnitInfo (by decide)

/-! ## Insertions into the unit map -/

theorem find?_key_none {m : UnitMap} {info : UnitInfo} (h : info ∉ m.map Prod.fst) :
    m.find? (fun e => e.1 == info) = none := by
  apply List.find?_eq_none.mpr
  intro e he heq
  have : e.1 = info := by simpa using heq
  exact h (List.mem_map.mpr ⟨e, he, this⟩)

theorem mapInsert_of_absent (lt : UnitInfo → UnitInfo → Bool) (info : UnitInfo)
    (data : Option UnitData) (m : UnitMap) (h : info ∉ m.map Prod.fst) :
    mapInsert lt info data m =
      some (m.takeWhile (fun e => lt e.1 info)
        ++ (info, data) :: m.dropWhile (fun e => lt e.1 info)) := by
  unfold mapInsert
  have hany : m.any (fun e => e.1 == info) = false := by
    cases hb : m.any (fun e => e.1 == info)
    · rfl
    · exact absurd (mem_keys_of_any hb) h
  rw [hany]
  rfl

/-- After an insertion the key holds the inserted value. -/
theorem mapFind_mapInsert_self {lt : UnitInfo → UnitInfo → Bool} {info : UnitInfo}
    {data : Option UnitData} {m m1 : UnitMap} (h : mapInsert lt info data m = some m1) :
    mapFind m1 info = some data := by
  have habsent : info ∉ m.map Prod.fst := by
    intro hmem
    rw [(mapInsert_eq_none_iff lt info data m).mpr hmem] at h
    cases h
  rw [mapInsert_of_absent lt info data m habsent] at h
  cases h
  have htw : (m.takeWhile (fun e => lt e.1 info)).find? (fun e => e.1 == info) = none := by
    apply List.find?_eq_none.mpr
    intro e he heq
    have he1 : e.1 = info := by simpa using heq
    exact habsent (List.mem_map.mpr ⟨e, (List.takeWhile_sublist _).subset he, he1⟩)
  unfold mapFind
  rw [List.find?_append, htw]
  simp

/-- After an insertion every other key holds what it held. -/
theorem mapFind_mapInsert_other {lt : UnitInfo → UnitInfo → Bool} {info : UnitInfo}
    {data : Option UnitData} {m m1 : UnitMap} (h : mapInsert lt info data m = some m1)
    (k : UnitInfo) (hk : k ≠ info) : mapFind m1 k = mapFind m k := by
  have habsent : info ∉ m.map Prod.fst := by
    intro hmem
    rw [(mapInsert_eq_none_iff lt info data m).mpr hmem] at h
    cases h
  rw [mapInsert_of_absent lt info data m habsent] at h
  cases h
  have hne : (info == k) = false := by simpa using fun h1 : info = k => hk h1.symm
  unfold mapFind
  conv_rhs => rw [← List.takeWhile_append_dropWhile (fun e => lt e.1 info) m]
  rw [List.find?_append, List.find?_append, List.find?_cons]
  simp only [hne]

/-! ## C13: the initial enumeration -/

/-- The `UnitNew` handler changes the map as `unitNew` does. -/
theorem onUnitNew_fst (lt : UnitInfo → UnitInfo → Bool) (getUnit : Str → Option (Option Str))
    (m : UnitMap) (name path : Str) :
    (onUnitNew lt getUnit m name path).1 = (unitNew lt getUnit m name path).2 := by
  unfold onUnitNew
  cases hparse : parseUnit name with
  | none =>
    unfold unitNew
    simp only [hparse]
    split <;> rfl
  | some info =>
    simp only []
    split
    · rename_i h
      rw [h]
    · rename_i h
      rw [h]

theorem any_keysAndUnitPaths (m : UnitMap) (info : UnitInfo) :
    (keysAndUnitPaths m).any (fun e => e.1 == info) = m.any (fun e => e.1 == info) := by
  induction m with
  | nil => rfl
  | cons e es ih =>
    have hcons : keysAndUnitPaths (e :: es)
        = (e.1, e.2.map (fun d => d.unitpath)) :: keysAndUnitPaths es := rfl
    rw [hcons, List.any_cons, List.any_cons, ih]

theorem takeWhile_keysAndUnitPaths (p : UnitInfo → Bool) (m : UnitMap) :
    keysAndUnitPaths (m.takeWhile (fun e => p e.1))
      = (keysAndUnitPaths m).takeWhile (fun e => p e.1) := by
  unfold keysAndUnitPaths
  rw [List.takeWhile_map]
  rfl

theorem dropWhile_keysAndUnitPaths (p : UnitInfo → Bool) (m : UnitMap) :
    keysAndUnitPaths (m.dropWhile (fun e => p e.1))
      = (keysAndUnitPaths m).dropWhile (fun e => p e.1) := by
  unfold keysAndUnitPaths
  rw [List.dropWhile_map]
  rfl

/-- What an insertion leaves of keys and unit paths depends on the keys and
unit paths of the map and on the unit path of the data alone. -/
theorem mapInsert_keysAndUnitPaths (lt : UnitInfo → UnitInfo → Bool) (info : UnitInfo)
    (d1 d2 : Option UnitData) (m1 m2 : UnitMap)
    (hm : keysAndUnitPaths m1 = keysAndUnitPaths m2)
    (hd : d1.map (fun d => d.unitpath) = d2.map (fun d => d.unitpath)) :
    (mapInsert lt info d1 m1).map keysAndUnitPaths
      = (mapInsert lt info d2 m2).map keysAndUnitPaths := by
  unfold mapInsert
  rw [← any_keysAndUnitPaths m1, ← any_keysAndUnitPaths m2, hm]
  split
  · rfl
  · simp only [Option.map_some', Option.some.injEq]
    have happ : ∀ (a b : UnitMap) (d : Option UnitData),
        keysAndUnitPaths (a ++ (info, d) :: b)
          = keysAndUnitPaths a ++ (info, d.map (fun d => d.unitpath)) :: keysAndUnitPaths b := by
      intro a b d
      simp [keysAndUnitPaths]
    rw [happ, happ, takeWhile_keysAndUnitPaths (fun k => lt k info),
      takeWhile_keysAndUnitPaths (fun k => lt k info),
      dropWhile_keysAndUnitPaths (fun k => lt k info),
      dropWhile_keysAndUnitPaths (fun k => lt k info), hm, hd]

theorem setUnitPath_keysAndUnitPaths (info : UnitInfo) (gpath : Str) (m : UnitMap) :
    keysAndUnitPaths (setUnitPath info gpath m)
      = (keysAndUnitPaths m).map (fun e =>
          if e.1 == info then (e.1, e.2.map (fun _ => gpath)) else e) := by
  unfold keysAndUnitPaths setUnitPath
  rw [List.map_map, List.map_map]
  apply List.map_congr_left
  intro e _
  simp only [Function.comp]
  split
  · cases e.2 <;> rfl
  · rfl

/-- With job paths other than `/`, the keys and unit paths that `unitNew`
leaves do not depend on the job path it is given. -/
theorem unitNew_keysAndUnitPaths (lt : UnitInfo → UnitInfo → Bool)
    (getUnit : Str → Option (Option Str)) (m1 m2 : UnitMap) (name path1 path2 : Str)
    (hm : keysAndUnitPaths m1 = keysAndUnitPaths m2)
    (h1 : path1 ≠ "/".toList) (h2 : path2 ≠ "/".toList) :
    keysAndUnitPaths (unitNew lt getUnit m1 name path1).2
      = keysAndUnitPaths (unitNew lt getUnit m2 name path2).2 := by
  have hb1 : (path1 == "/".toList) = false := by simpa using h1
  have hb2 : (path2 == "/".toList) = false := by simpa using h2
  cases hparse : parseUnit name with
  | none =>
    simp only [unitNew, hb1, hb2, hparse, Bool.false_eq_true, if_false]
    exact hm
  | some info =>
    have hins := mapInsert_keysAndUnitPaths lt info
      (some { jobpath := path1, unitpath := [] }) (some { jobpath := path2, unitpath := [] })
      m1 m2 hm rfl
    cases hi1 : mapInsert lt info (some { jobpath := path1, unitpath := [] }) m1 with
    | none =>
      rw [hi1] at hins
      cases hi2 : mapInsert lt info (some { jobpath := path2, unitpath := [] }) m2 with
      | none =>
        simp only [unitNew, hb1, hb2, hparse, hi1, hi2, Bool.false_eq_true, if_false]
        exact hm
      | some n2 => rw [hi2] at hins; cases hins
    | some n1 =>
      rw [hi1] at hins
      cases hi2 : mapInsert lt info (some { jobpath := path2, unitpath := [] }) m2 with
      | none => rw [hi2] at hins; cases hins
      | some n2 =>
        rw [hi2] at hins
        have hn : keysAndUnitPaths n1 = keysAndUnitPaths n2 := by simpa using hins
        cases hget : getUnit name with
        | none =>
          simp only [unitNew, hb1, hb2, hparse, hi1, hi2, hget, Bool.false_eq_true, if_false]
          exact hn
        | some reply =>
          cases reply with
          | none =>
            simp only [unitNew, hb1, hb2, hparse, hi1, hi2, hget, Bool.false_eq_true, if_false]
            exact hn
          | some gpath =>
            simp only [unitNew, hb1, hb2, hparse, hi1, hi2, hget, Bool.false_eq_true, if_false,
              setUnitPath_keysAndUnitPaths, hn]

/-- With the job path `/`, `unitNew` leaves the map as it is. -/
theorem unitNew_root_path (lt : UnitInfo → UnitInfo → Bool) (getUnit : Str → Option (Option Str))
    (m : UnitMap) (name : Str) : (unitNew lt getUnit m name "/".toList).2 = m := by
  unfold unitNew
  simp

theorem mapFind_setUnitPath (info : UnitInfo) (gpath : Str) (m : UnitMap) :
    mapFind (setUnitPath info gpath m) info
      = (mapFind m info).map (fun data => data.map (fun d => { d with unitpath := gpath })) := by
  unfold mapFind setUnitPath
  induction m with
  | nil => rfl
  | cons e es ih =>
    by_cases he : (e.1 == info) = true
    · have h1 : ((e.1, e.2.map (fun d => { d with unitpath := gpath })).1 == info) = true := he
      simp only [List.map_cons, if_pos he, List.find?_cons, h1, he, Option.map_some', if_true]
    · have he2 : (e.1 == info) = false := Bool.eq_false_iff.mpr he
      simp only [List.map_cons, he2, Bool.false_eq_true, if_false, List.find?_cons]
      exact ih

/-- The data that `unitNew` leaves under a key that it inserts: the job path
it was given and the unit path that `GetUnit` answered, empty when the call
failed or answered a null path. -/
theorem mapFind_unitNew (lt : UnitInfo → UnitInfo → Bool) (getUnit : Str → Option (Option Str))
    (m : UnitMap) (name path : Str) (info : UnitInfo) (hpath : path ≠ "/".toList)
    (hparse : parseUnit name = some info) (habsent : info ∉ m.map Prod.fst) :
    mapFind (unitNew lt getUnit m name path).2 info
      = some (some { jobpath := path, unitpath := ((getUnit name).getD none).getD [] }) := by
  have hb : (path == "/".toList) = false := by simpa using hpath
  have hins := mapInsert_of_absent lt info (some { jobpath := path, unitpath := [] }) m habsent
  have hself := mapFind_mapInsert_self hins
  cases hget : getUnit name with
  | none =>
    simp only [unitNew, hb, hparse, hins, hget, Bool.false_eq_true, if_false]
    exact hself
  | some reply =>
    cases reply with
    | none =>
      simp only [unitNew, hb, hparse, hins, hget, Bool.false_eq_true, if_false]
      exact hself
    | some gpath =>
      simp only [unitNew, hb, hparse, hins, hget, Bool.false_eq_true, if_false,
        mapFind_setUnitPath, hself]
      rfl

/-- C13, counterexample: the sample unit as `ListUnits` reports it, with the
unit object path `/unit/1`. While its start job `/job/1` is queued, the initial
enumeration stores the job path `/job/1` and emits nothing, where the `UnitNew`
signal for the unit, which carries the unit object path, stores `/unit/1` as the
job path and emits `jobStarted`. Once the unit runs and no job is queued, its
job path is `/`: the initial enumeration leaves the map empty, where the signal
inserts the unit and emits `jobStarted`. -/
theorem getInitialUnits_differs_counterexample :
    getInitialUnits (fun _ _ => false) (fun _ => some (some "/unit/1".toList))
        (some [sampleListedUnit]) []
        = ([(sampleUnitInfo,
            some { jobpath := "/job/1".toList, unitpath := "/unit/1".toList })], []) ∧
      onUnitNew (fun _ _ => false) (fun _ => some (some "/unit/1".toList)) []
          sampleListedUnit.id sampleListedUnit.path
        = ([(sampleUnitInfo,
            some { jobpath := "/unit/1".toList, unitpath := "/unit/1".toList })],
          [Event.jobStarted "application-legacy".toList "foo".toList "1".toList]) ∧
      getInitialUnits (fun _ _ => false) (fun _ => some (some "/unit/1".toList))
        (some [sampleListedUnitNoJob]) [] = ([], []) ∧
      onUnitNew (fun _ _ => false) (fun _ => some (some "/unit/1".toList)) []
          sampleListedUnitNoJob.id sampleListedUnitNoJob.path
        = ([(sampleUnitInfo,
            some { jobpath := "/unit/1".toList, unitpath := "/unit/1".toList })],
          [Event.jobStarted "application-legacy".toList "foo".toList "1".toList]) := by
  decide

/-- C13, as amended: the initial enumeration emits no signal. It skips the
units of the reply whose job path is `/`, and gives each other unit to `unitNew`
with its name and its job path, where the `UnitNew` signal for a unit carries
its name and its unit object path. When no unit object path of the reply is
`/`, the enumeration leaves the keys and the unit paths that the `UnitNew`
signals for the units with a job path other than `/` leave, in the order of the
reply. For such a unit whose name parses to a key that is not in the map, the
enumeration stores the job path of the reply and the unit path that `GetUnit`
resolves, where the signal stores the unit object path it carries as the job
path, with the same unit path, and emits `jobStarted` when `GetUnit`
answers. -/
theorem getInitialUnits_spec (lt : UnitInfo → UnitInfo → Bool)
    (getUnit : Str → Option (Option Str)) (units : List ListedUnit) (m : UnitMap) :
    (getInitialUnits lt getUnit (some units) m).2 = [] ∧
      (getInitialUnits lt getUnit (some units) m).1
        = (getInitialUnits lt getUnit
            (some (units.filter (fun unit => unit.jobPath != "/".toList))) m).1 ∧
      ((∀ unit ∈ units, unit.path ≠ "/".toList) →
        keysAndUnitPaths (getInitialUnits lt getUnit (some units) m).1
          = keysAndUnitPaths ((units.filter (fun unit => unit.jobPath != "/".toList)).foldl
              (fun m unit => (onUnitNew lt getUnit m unit.id unit.path).1) m)) ∧
      (∀ (unit : ListedUnit) (info : UnitInfo), parseUnit unit.id = some info →
        info ∉ m.map Prod.fst → unit.jobPath ≠ "/".toList →
        mapFind (getInitialUnits lt getUnit (some [unit]) m).1 info
            = some (some { jobpath := unit.jobPath,
                           unitpath := ((getUnit unit.id).getD none).getD [] }) ∧
          (unit.path ≠ "/".toList →
            mapFind (onUnitNew lt getUnit m unit.id unit.path).1 info
                = some (some { jobpath := unit.path,
                               unitpath := ((getUnit unit.id).getD none).getD [] }) ∧
              (getUnit unit.id ≠ none →
                (onUnitNew lt getUnit m unit.id unit.path).2
                  = [Event.jobStarted info.job info.appid info.inst]))) := by
  have hskip : ∀ (units : List ListedUnit) (m : UnitMap),
      units.foldl (fun m unit => (unitNew lt getUnit m unit.id unit.jobPath).2) m
        = (units.filter (fun unit => unit.jobPath != "/".toList)).foldl
            (fun m unit => (unitNew lt getUnit m unit.id unit.jobPath).2) m := by
    intro units
    induction units with
    | nil => intro m; rfl
    | cons u us ih =>
      intro m
      by_cases hu : u.jobPath = "/".toList
      · have hf : (u.jobPath != "/".toList) = false := by simp [hu]
        rw [List.filter_cons, hf, List.foldl_cons, hu, unitNew_root_path]
        exact ih m
      · have hf : (u.jobPath != "/".toList) = true := by simpa using hu
        rw [List.filter_cons, hf]
        simp only [if_true, List.foldl_cons]
        exact ih _
  have hfold : ∀ (units : List ListedUnit) (m1 m2 : UnitMap),
      keysAndUnitPaths m1 = keysAndUnitPaths m2 →
      (∀ unit ∈ units, unit.jobPath ≠ "/".toList ∧ unit.path ≠ "/".toList) →
      keysAndUnitPaths
          (units.foldl (fun m unit => (unitNew lt getUnit m unit.id unit.jobPath).2) m1)
        = keysAndUnitPaths
          (units.foldl (fun m unit => (onUnitNew lt getUnit m unit.id unit.path).1) m2) := by
    intro units
    induction units with
    | nil => intro m1 m2 hm _; exact hm
    | cons u us ih =>
      intro m1 m2 hm hall
      rw [List.foldl_cons, List.foldl_cons]
      apply ih
      · rw [onUnitNew_fst]
        exact unitNew_keysAndUnitPaths lt getUnit m1 m2 u.id u.jobPath u.path hm
          (hall u (List.mem_cons_self _ _)).1 (hall u (List.mem_cons_self _ _)).2
      · intro unit hunit
        exact hall unit (List.mem_cons_of_mem _ hunit)
  refine ⟨rfl, hskip units m, ?_, ?_⟩
  · intro hpaths
    show keysAndUnitPaths
        (units.foldl (fun m unit => (unitNew lt getUnit m unit.id unit.jobPath).2) m) = _
    rw [hskip]
    apply hfold _ m m rfl
    intro unit hunit
    have hmem := List.mem_filter.mp hunit
    exact ⟨by simpa using hmem.2, hpaths unit hmem.1⟩
  · intro unit info hparse habsent hjob
    refine ⟨mapFind_unitNew lt getUnit m unit.id unit.jobPath info hjob hparse habsent, ?_⟩
    intro hpath
    constructor
    · rw [onUnitNew_fst]
      exact mapFind_unitNew lt getUnit m unit.id unit.path info hpath hparse habsent
    · intro hget
      have hb : (unit.path == "/".toList) = false := by simpa using hpath
      have hins := mapInsert_of_absent lt info
        (some { jobpath := unit.path, unitpath := [] }) m habsent
      unfold onUnitNew unitNew
      simp only [hparse, hb, hins]
      cases hg : getUnit unit.id with
      | none => exact absurd hg hget
      | some reply => cases reply <;> rfl

/-- C13, witness: the sample unit with its queued start job, on the empty
map, and the signal for it with a `GetUnit` call that answers. -/
theorem getInitialUnits_spec_witness :
    mapFind (getInitialUnits (fun _ _ => false) (fun _ => some (some "/unit/1".toList))
        (some [sampleListedUnit]) []).1 sampleUnitInfo
        = some (some { jobpath := "/job/1".toList, unitpath := "/unit/1".toList }) ∧
      mapFind (onUnitNew (fun _ _ => false) (fun _ => some (some "/unit/1".toList)) []
          sampleListedUnit.id sampleListedUnit.path).1 sampleUnitInfo
        = some (some { jobpath := "/unit/1".toList, unitpath := "/unit/1".toList }) ∧
      (onUnitNew (fun _ _ => false) (fun _ => some (some "/unit/1".toList)) []
          sampleListedUnit.id sampleListedUnit.path).2
        = [Event.jobStarted "application-legacy".toList "foo".toList "1".toList] :=
  ⟨((getInitialUnits_spec (fun _ _ => false) (fun _ => some (some "/unit/1".toList))
      [sampleListedUnit] []).2.2.2 sampleListedUnit sampleUnitInfo (by decide) (by decide)
      (by decide)).1,
    (((getInitialUnits_spec (fun _ _ => false) (fun _ => some (some "/unit/1".toList))
      [sampleListedUnit] []).2.2.2 sampleListedUnit sampleUnitInfo (by decide) (by decide)
      (by decide)).2 (by decide)).1,
    (((getInitialUnits_spec (fun _ _ => false) (fun _ => some (some "/unit/1".toList))
      [sampleListedUnit] []).2.2.2 sampleListedUnit sampleUnitInfo (by decide) (by decide)
      (by decide)).2 (by decide)).2 (by decide)⟩

/-! ## C14: the platform of Qt -/

/-- C15, counterexample: a launch with a non-empty appid whose environment has
no `APP_EXEC` sends a request without an `ExecStart` property. -/
theorem launch_without_execStart_counterexample :
    launch sampleWorld sampleArgsNoExec =
      [Action.handshakeStart "foo".toList "1".toList 1, Action.handshakeWait,
       Action.startTransientUnit
        { name := "ubuntu-app-launch--application-legacy--foo--1.service".toList
          mode := "replace".toList
          properties :=
            [("RemainAfterExit".toList, PropValue.boolean false),
             ("Type".toList, PropValue.string "oneshot".toList),
             ("Environment".toList,
               PropValue.strings ["APP_ID=foo".toList, "DISPLAY=:0".toList,
                 "MIR_SOCKET=/run/mir_socket".toList])]
          aux := [] }] := by
  decide

theorem execStartProperty_key (find : Str → Option Str) (commands : List Str) (key : Str)
    (v : PropValue) (h : (key, v) ∈ execStartProperty find commands) :
    key = "ExecStart".toList ∧ commands ≠ [] := by
  cases commands with
  | nil => simp [execStartProperty] at h
  | cons cmd0 args =>
    simp only [execStartProperty, List.mem_singleton, Prod.mk.injEq] at h
    exact ⟨h.1, by simp⟩

theorem execStartProperty_ne_nil (find : Str → Option Str) (commands : List Str)
    (h : commands ≠ []) : ∃ v, ("ExecStart".toList, v) ∈ execStartProperty find commands := by
  cases commands with
  | nil => exact absurd rfl h
  | cons cmd0 args => exact ⟨_, List.mem_singleton.mpr rfl⟩

/-- C15, as amended: for every launch with a non-empty appid that assembles
its environment, the one request sent carries the unit name
`unitName {appid, job, instance}`, the mode `replace`, an empty list of
dependent units, and the properties `RemainAfterExit=false`, `Type=oneshot` and
`Environment`, plus `ExecStart` exactly when `parseExec` returns at least one
token and `WorkingDirectory` exactly when the first `APP_DIR` entry of the
assembled environment has a non-empty value, with that value. -/
theorem launch_request (w : World) (a : LaunchArgs) (env : Env) (hne : a.appId.empty = false)
    (henv : launchEnv w a = some env) :
    (∀ req, Action.startTransientUnit req ∈ launch w a ↔ req = buildRequest w a env) ∧
      (buildRequest w a env).name
        = unitName { appid := a.appId.str, job := a.job, inst := a.instance_ } ∧
      (buildRequest w a env).mode = "replace".toList ∧
      (buildRequest w a env).aux = [] ∧
      ("RemainAfterExit".toList, PropValue.boolean false) ∈ (buildRequest w a env).properties ∧
      ("Type".toList, PropValue.string "oneshot".toList) ∈ (buildRequest w a env).properties ∧
      ("Environment".toList, PropValue.strings (environmentProperty (cleanEnv env)))
        ∈ (buildRequest w a env).properties ∧
      ((∃ v, ("ExecStart".toList, v) ∈ (buildRequest w a env).properties) ↔
        parseExec w.desktop_exec_parse env ≠ []) ∧
      (∀ v, ("WorkingDirectory".toList, v) ∈ (buildRequest w a env).properties ↔
        (findEnv "APP_DIR".toList env ≠ [] ∧
          v = PropValue.string (findEnv "APP_DIR".toList env))) := by
  refine ⟨?_, rfl, rfl, rfl, ?_, ?_, buildRequest_environment w a env, ?_, ?_⟩
  · intro req
    simp only [launch, hne, henv, Bool.false_eq_true, if_false]
    split_ifs <;> simp [eq_comm]
  · simp [buildRequest]
  · simp [buildRequest]
  · simp only [buildRequest, List.mem_append]
    constructor
    · rintro ⟨v, h⟩
      rcases h with (((h | h) | h) | h) | h
      · exact (execStartProperty_key _ _ _ _ h).2
      · simp at h
      · simp at h
      · split_ifs at h <;> simp at h
      · simp at h
    · intro h
      obtain ⟨v, hv⟩ := execStartProperty_ne_nil w.g_find_program_in_path _ h
      exact ⟨v, Or.inl (Or.inl (Or.inl (Or.inl hv)))⟩
  · intro v
    simp only [buildRequest, List.mem_append]
    constructor
    · intro h
      rcases h with (((h | h) | h) | h) | h
      · exact absurd (execStartProperty_key _ _ _ _ h).1 (by decide)
      · simp at h
      · simp at h
      · split_ifs at h with hd
        · simp only [List.mem_singleton, Prod.mk.injEq, true_and] at h
          have hd2 : findEnv "APP_DIR".toList env ≠ [] := by
            intro h0
            rw [h0] at hd
            simp at hd
          exact ⟨hd2, h⟩
        · simp at h
      · simp at h
    · rintro ⟨hd, hv⟩
      have hd2 : (!(findEnv "APP_DIR".toList env).isEmpty) = true := by
        cases hf : findEnv "APP_DIR".toList env with
        | nil => exact absurd hf hd
        | cons c cs => rfl
      refine Or.inl (Or.inr ?_)
      rw [if_pos hd2, hv]
      simp

/-- C15, witness: the sample launch. -/
theorem launch_request_witness :
    (∀ req, Action.startTransientUnit req ∈ launch sampleWorld sampleArgs ↔
        req = buildRequest sampleWorld sampleArgs sampleEnv) ∧
      (buildRequest sampleWorld sampleArgs sampleEnv).name
        = unitName { appid := sampleArgs.appId.str, job := sampleArgs.job,
                     inst := sampleArgs.instance_ } ∧
      (buildRequest sampleWorld sampleArgs sampleEnv).mode = "replace".toList ∧
      (buildRequest sampleWorld sampleArgs sampleEnv).aux = [] ∧
      ("RemainAfterExit".toList, PropValue.boolean false)
        ∈ (buildRequest sampleWorld sampleArgs sampleEnv).properties ∧
      ("Type".toList, PropValue.string "oneshot".toList)
        ∈ (buildRequest sampleWorld sampleArgs sampleEnv).properties ∧
      ("Environment".toList, PropValue.strings (environmentProperty (cleanEnv sampleEnv)))
        ∈ (buildRequest sampleWorld sampleArgs sampleEnv).properties ∧
      ((∃ v, ("ExecStart".toList, v) ∈ (buildRequest sampleWorld sampleArgs sampleEnv).properties) ↔
        parseExec sampleWorld.desktop_exec_parse sampleEnv ≠ []) ∧
      (∀ v, ("WorkingDirectory".toList, v)
          ∈ (buildRequest sampleWorld sampleArgs sampleEnv).properties ↔
        (findEnv "APP_DIR".toList sampleEnv ≠ [] ∧
          v = PropValue.string (findEnv "APP_DIR".toList sampleEnv))) :=
  launch_request sampleWorld sampleArgs sampleEnv (by decide) (by decide)

/-- C16: for every launch with a non-empty appid whose job is an application
job, the first thing done is to start the handshake, with timeout 0 when an
observer of starting applications is watching and 1 second otherwise, and
whenever the request is sent the wait on the handshake comes before it. -/
theorem launch_handshake (w : World) (a : LaunchArgs) (hne : a.appId.empty = false)
    (hjob : a.job ∈ w.appJobs) :
    (launch w a).head? =
        some (Action.handshakeStart a.appId.str a.instance_
          (if w.watchingAppStarting = true then 0 else 1)) ∧
      ∀ before req after, launch w a = before ++ Action.startTransientUnit req :: after →
        before = [Action.handshakeStart a.appId.str a.instance_
            (if w.watchingAppStarting = true then 0 else 1), Action.handshakeWait] := by
  have hc : w.appJobs.contains a.job = true := List.elem_eq_true_of_mem hjob
  unfold launch
  simp only [hne, Bool.false_eq_true, if_false, hc, if_true]
  cases launchEnv w a with
  | none =>
    refine ⟨rfl, ?_⟩
    intro before req after h
    exfalso
    have hmem : Action.startTransientUnit req ∈ before ++ Action.startTransientUnit req :: after :=
      by simp
    rw [← h] at hmem
    simp at hmem
  | some env =>
    refine ⟨rfl, ?_⟩
    intro before req after h
    simp only [List.singleton_append] at h
    match before, h with
    | [], h => simp at h
    | [_], h => simp at h
    | [x, y], h =>
      simp only [List.cons_append, List.nil_append, List.cons.injEq] at h
      rw [← h.1, ← h.2.1]
    | _ :: _ :: _ :: rest, h =>
      have hl := congrArg List.length h
      simp at hl

/-- C16, witness: the sample launch, with no observer watching, starts the
handshake with a timeout of one second and waits before it sends the request. -/
theorem launch_handshake_witness :
    (launch sampleWorld sampleArgs).head? =
        some (Action.handshakeStart sampleArgs.appId.str sampleArgs.instance_
          (if sampleWorld.watchingAppStarting = true then 0 else 1)) ∧
      ∀ before req after,
        launch sampleWorld sampleArgs = before ++ Action.startTransientUnit req :: after →
        before = [Action.handshakeStart sampleArgs.appId.str sampleArgs.instance_
            (if sampleWorld.watchingAppStarting = true then 0 else 1), Action.handshakeWait] :=
  launch_handshake sampleWorld sampleArgs (by decide) (by decide)

/-! ## C17, C18: the desktop file and the printed command -/

/-- What `try_dir` and `verify_keyfile` make of a directory is the test of the
specification: the file loads and has the group and the key. -/
theorem verify_try_dir (w : DesktopWorld) (dir desktop : Str) :
    verify_keyfile (try_dir w dir desktop) desktop =
      match w.load (w.g_build_filename dir "applications".toList desktop) with
      | some keyfile =>
        if keyfile.has_group "Desktop Entry".toList
            && keyfile.has_key "Desktop Entry".toList "Exec".toList then some keyfile
        else none
      | none => none := by
  unfold verify_keyfile try_dir
  cases w.load (w.g_build_filename dir "applications".toList desktop) with
  | none => rfl
  | some keyfile =>
    simp only []
    cases keyfile.has_group "Desktop Entry".toList <;>
      cases keyfile.has_key "Desktop Entry".toList "Exec".toList <;> rfl

/-- The loop over the data directories keeps a key file already found and
otherwise returns the first that qualifies. -/
theorem searchDataDirs_eq (w : DesktopWorld) (desktop : Str) :
    ∀ (dirs : List Str) (keyfile : Option GKeyFile),
      searchDataDirs w desktop dirs keyfile =
        match keyfile with
        | some found => some found
        | none => dirs.findSome? (fun dir => verify_keyfile (try_dir w dir desktop) desktop) := by
  intro dirs
  induction dirs with
  | nil =>
    intro keyfile
    cases keyfile <;> rfl
  | cons dir rest ih =>
    intro keyfile
    cases keyfile with
    | some found => rfl
    | none =>
      simp only [searchDataDirs, List.findSome?_cons]
      rw [ih]
      cases verify_keyfile (try_dir w dir desktop) desktop <;> rfl

theorem findKeyfile_eq_firstQualifying (w : DesktopWorld) (desktop : Str) :
    findKeyfile w desktop = firstQualifying w desktop := by
  unfold findKeyfile firstQualifying
  rw [searchDataDirs_eq, List.findSome?_cons]
  simp only [← verify_try_dir]
  cases verify_keyfile (try_dir w w.userDataDir desktop) desktop <;> rfl

theorem main_eq (w : DesktopWorld) (prog app_id : Str) (uri_list : Option Str) :
    main w (prog :: app_id :: uri_list.toList) =
      match findKeyfile w (app_id ++ ".desktop".toList) with
      | none => Outcome.aborted
      | some keyfile => printCommand keyfile uri_list := by
  cases uri_list <;> rfl

/-- C17: for every user data directory, list of system data directories and
file-system content, the key file that `main` uses is the one of the first
directory, the user data directory first and then the system data directories
in list order, whose `applications/<appid>.desktop` loads and has a
`Desktop Entry` group with an `Exec` key; when no directory qualifies the
program is aborted by `g_error` and prints nothing. -/
theorem main_uses_first_qualifying (w : DesktopWorld) (prog app_id : Str)
    (uri_list : Option Str) :
    findKeyfile w (app_id ++ ".desktop".toList) = firstQualifying w (app_id ++ ".desktop".toList) ∧
      main w (prog :: app_id :: uri_list.toList) =
        match firstQualifying w (app_id ++ ".desktop".toList) with
        | none => Outcome.aborted
        | some keyfile => printCommand keyfile uri_list := by
  refine ⟨findKeyfile_eq_firstQualifying w _, ?_⟩
  rw [main_eq, findKeyfile_eq_firstQualifying]

/-- C18, counterexample: the desktop file of `foo` has the key
`X-Canonical-AppArmor-Profile`, with value `foo_profile`, and the program
prints the expanded Exec line alone. -/
theorem main_ignores_dashed_profile_key_counterexample :
    (firstQualifying sampleDesktopWorld "foo.desktop".toList).map
        (fun keyfile => keyfile.get_string "Desktop Entry".toList
          "X-Canonical-AppArmor-Profile".toList) = some (some "foo_profile".toList) ∧
      main sampleDesktopWorld ["desktop-exec".toList, "foo".toList, "file:///x".toList]
        = Outcome.printed "foo  file:///x \n".toList := by
  decide

/-- C18, as amended: for every desktop file that the search finds and whose
Exec line `handle_codes` expands, the program prints
`aa-exec -p "P" -- ` followed by the expanded Exec line when the
`Desktop Entry` group has the key `XCanonicalAppArmorProfile` with value `P`,
and the expanded Exec line alone when that key is absent; a new line ends the
output. -/
theorem main_prints (w : DesktopWorld) (prog app_id execline codeexec : Str)
    (uri_list : Option Str) (keyfile : GKeyFile)
    (hfound : firstQualifying w (app_id ++ ".desktop".toList) = some keyfile)
    (hexec : keyfile.get_string "Desktop Entry".toList "Exec".toList = some execline)
    (hcodes : handle_codes execline uri_list = some codeexec) :
    main w (prog :: app_id :: uri_list.toList) =
      match keyfile.get_string "Desktop Entry".toList "XCanonicalAppArmorProfile".toList with
      | some apparmor =>
        Outcome.printed ("aa-exec -p \"".toList ++ apparmor ++ "\" -- ".toList ++ codeexec
          ++ "\n".toList)
      | none => Outcome.printed (codeexec ++ "\n".toList) := by
  rw [main_eq, findKeyfile_eq_firstQualifying, hfound]
  simp only [printCommand, hexec, hcodes]
  cases keyfile.get_string "Desktop Entry".toList "XCanonicalAppArmorProfile".toList <;> rfl

/-- C18, witness: the desktop file of `bar` has the key
`XCanonicalAppArmorProfile`. -/
theorem main_prints_witness :
    main sampleDesktopWorld
        ("desktop-exec".toList :: "bar".toList :: (some "file:///x".toList).toList) =
      match (sampleKeyFile [("Exec".toList, "bar %U".toList),
          ("XCanonicalAppArmorProfile".toList, "bar_profile".toList)]).get_string
          "Desktop Entry".toList "XCanonicalAppArmorProfile".toList with
      | some apparmor =>
        Outcome.printed ("aa-exec -p \"".toList ++ apparmor ++ "\" -- ".toList
          ++ "bar  file:///x ".toList ++ "\n".toList)
      | none => Outcome.printed ("bar  file:///x ".toList ++ "\n".toList) :=
  main_prints sampleDesktopWorld "desktop-exec".toList "bar".toList "bar %U".toList
    "bar  file:///x ".toList (some "file:///x".toList)
    (sampleKeyFile [("Exec".toList, "bar %U".toList),
      ("XCanonicalAppArmorProfile".toList, "bar_profile".toList)])
    rfl (by decide) (by decide)

/-! ## C19, C20: Exec lines without codes and unknown codes -/

theorem splitBy_of_no_sep (p : Char → Bool) :
    ∀ s : Str, (∀ c ∈ s, p c = false) → splitBy p s = [s] := by
  intro s
  induction s with
  | nil => intro _; rfl
  | cons c cs ih =>
    intro h
    have hc : p c = false := h c (by simp)
    rw [splitBy]
    simp [hc, ih (fun x hx => h x (by simp [hx]))]

/-- A non-empty Exec line without `%` is returned unchanged, with or without a
URI list. -/
theorem handle_codes_no_percent (execline : Str) (uri_list : Option Str) (hne : execline ≠ [])
    (hno : '%' ∉ execline) : handle_codes execline uri_list = some execline := by
  have hsplit : g_strsplit execline = [execline] := by
    unfold g_strsplit
    rw [if_neg (by simpa using hne)]
    apply splitBy_of_no_sep
    intro c hc
    have : c ≠ '%' := fun h => hno (h ▸ hc)
    simpa using this
  unfold handle_codes
  rw [hsplit]

/-- C19, the code at the failing input: the empty Exec line contains no `%`;
`g_strsplit` returns the empty vector for it and the test `execsplit[1] == NULL`
reads past the terminator of the vector, with or without a URI list, so that
the program has no defined output for a desktop file whose `Exec` key is
empty. -/
theorem handle_codes_empty_line :
    '%' ∉ ([] : Str) ∧ g_strsplit [] = [] ∧ handle_codes [] none = none ∧
      handle_codes [] (some "file:///x".toList) = none ∧
      main sampleDesktopWorld ["desktop-exec".toList, "empty".toList] = Outcome.undefined := by
  decide

/-- A code whose case appends the rest of its piece and nothing else leaves the
arrays of the text before it and of the text after it side by side. -/
theorem handle_codes_dropped (pre post : Str) (uri_list : Option Str) (x : Char)
    (hx : (x == '%') = false)
    (hcode : ∀ skip, expandCode uri_list (x :: skip) = [some skip]) :
    handle_codes (pre ++ '%' :: x :: post) uri_list =
      some (g_strjoinv (outarray uri_list (splitBy (fun c => c == '%') pre)
        ++ outarray uri_list (splitBy (fun c => c == '%') post))) := by
  obtain ⟨p0, ps, hpost, hxpost⟩ := splitBy_cons_of_not (fun c => c == '%') x post hx
  have hsplit : g_strsplit (pre ++ '%' :: x :: post)
      = splitBy (fun c => c == '%') pre ++ (x :: p0) :: ps := by
    unfold g_strsplit
    rw [if_neg (by simp), splitBy_append_sep _ '%' (by simp), hxpost]
  cases hq : splitBy (fun c => c == '%') pre with
  | nil => exact absurd hq (splitBy_ne_nil _ pre)
  | cons q qs =>
    have harr : outarray uri_list (q :: qs ++ (x :: p0) :: ps)
        = outarray uri_list (q :: qs) ++ outarray uri_list (p0 :: ps) := by
      simp [outarray, List.flatMap_append, List.flatMap_cons, hcode]
    cases htail : qs ++ (x :: p0) :: ps with
    | nil => simp at htail
    | cons b rest =>
      have hsplit2 : g_strsplit (pre ++ '%' :: x :: post) = q :: b :: rest := by
        rw [hsplit, hq, List.cons_append, htail]
      rw [handle_codes_of_pieces _ _ q b rest hsplit2, ← hsplit2, hsplit, hq, harr, hpost]

/-- The case of a character that is neither `U` nor `u` appends the rest of
the piece and nothing else. -/
theorem expandCode_other (uri_list : Option Str) (x : Char) (skip : Str) (hU : x ≠ 'U')
    (hu : x ≠ 'u') : expandCode uri_list (x :: skip) = [some skip] := by
  have h1 : (x == 'U') = false := by simpa using hU
  have h2 : (x == 'u') = false := by simpa using hu
  simp only [expandCode, h1, h2, Bool.false_eq_true, if_false]
  split_ifs <;> rfl

/-- C20, counterexample: `z` has no case of its own in the switch, and for the
template `foo%zbar` the output is `foo bar`, with a space between the text
before the code and the text after it, not `foobar`. -/
theorem handle_codes_unknown_code_counterexample :
    expandCode none "zbar".toList = [some "bar".toList] ∧
      handle_codes "foo%zbar".toList none = some "foo bar".toList ∧
      handle_codes "foo%zbar".toList none ≠ some "foobar".toList ∧
      (handle_codes "foo%zbar".toList none).map wsTokens = some ["foo".toList, "bar".toList] := by
  decide

/-- C20, as amended: for every Exec template in which `%` is followed by a
character that is neither `%` nor `U` nor `u`, which covers every character
outside the substitution table, the output of `handle_codes` is the join of
what the text before the code and the text after it contribute: with a URI
list, the expansion of the text before, one space, the expansion of the text
after; and when neither text has a `%`, the template with the two characters of
the code replaced by one space. -/
theorem handle_codes_unknown_code (pre post : Str) (uri_list : Option Str) (x : Char)
    (hx : x ≠ '%') (hU : x ≠ 'U') (hu : x ≠ 'u') :
    handle_codes (pre ++ '%' :: x :: post) uri_list =
        some (g_strjoinv (outarray uri_list (splitBy (fun c => c == '%') pre)
          ++ outarray uri_list (splitBy (fun c => c == '%') post))) ∧
      (∀ uris, uri_list = some uris →
        handle_codes (pre ++ '%' :: x :: post) uri_list =
          some (expandText (some uris) pre ++ " ".toList ++ expandText (some uris) post)) ∧
      ('%' ∉ pre → '%' ∉ post →
        handle_codes (pre ++ '%' :: x :: post) uri_list = some (pre ++ " ".toList ++ post)) := by
  have hmain := handle_codes_dropped pre post uri_list x (by simpa using hx)
    (fun skip => expandCode_other uri_list x skip hU hu)
  refine ⟨hmain, ?_, ?_⟩
  · intro uris huri
    subst huri
    obtain ⟨lpre, hlpre0, hlpre⟩ :=
      outarray_some uris (splitBy (fun c => c == '%') pre) (splitBy_ne_nil _ pre)
    obtain ⟨lpost, hlpost0, hlpost⟩ :=
      outarray_some uris (splitBy (fun c => c == '%') post) (splitBy_ne_nil _ post)
    rw [hmain, expandText_eq_intercalate uris pre lpre hlpre,
      expandText_eq_intercalate uris post lpost hlpost, hlpre, hlpost, ← List.map_append]
    unfold g_strjoinv
    rw [untilNull_map_some, intercalate_append _ _ hlpost0 _ hlpre0]
  · intro hpre hpost
    have hs : ∀ t : Str, '%' ∉ t → splitBy (fun c => c == '%') t = [t] := by
      intro t ht
      apply splitBy_of_no_sep
      intro c hc
      have : c ≠ '%' := fun h => ht (h ▸ hc)
      simpa using this
    rw [hmain, hs pre hpre, hs post hpost]
    simp [outarray, g_strjoinv, untilNull, List.intercalate]

/-- C20, witness: the template `foo%zbar` without a URI list. -/
theorem handle_codes_unknown_code_witness :
    handle_codes ("foo".toList ++ '%' :: 'z' :: "bar".toList) none =
        some (g_strjoinv (outarray none (splitBy (fun c => c == '%') "foo".toList)
          ++ outarray none (splitBy (fun c => c == '%') "bar".toList))) ∧
      (∀ uris, (none : Option Str) = some uris →
        handle_codes ("foo".toList ++ '%' :: 'z' :: "bar".toList) none =
          some (expandText (some uris) "foo".toList ++ " ".toList
            ++ expandText (some uris) "bar".toList)) ∧
      ('%' ∉ "foo".toList → '%' ∉ "bar".toList →
        handle_codes ("foo".toList ++ '%' :: 'z' :: "bar".toList) none
          = some ("foo".toList ++ " ".toList ++ "bar".toList)) :=
  handle_codes_unknown_code "foo".toList "bar".toList none 'z' (by decide) (by decide)
    (by decide)

/-! ## C21: the order of the stores -/

/-- C21: `allAppStores` returns Legacy, Libertine, Snap with Libertine support
and Legacy, Snap without it; in both cases Legacy is first, Snap is last and no
variant occurs twice. -/
theorem allAppStores_order :
    allAppStores true = [StoreKind.Legacy, StoreKind.Libertine, StoreKind.Snap] ∧
      allAppStores false = [StoreKind.Legacy, StoreKind.Snap] ∧
      ∀ b, (allAppStores b).head? = some StoreKind.Legacy ∧
        (allAppStores b).getLast? = some StoreKind.Snap ∧ (allAppStores b).Nodup := by
  refine ⟨rfl, rfl, ?_⟩
  intro b
  cases b <;> decide

/-! ## C24: the size of the environment -/

theorem untilNull_append_none (a b : List (Option Str)) :
    untilNull (a ++ none :: b) = untilNull a := by
  induction a with
  | nil => rfl
  | cons x xs ih =>
    cases x with
    | none => rfl
    | some s => simp [untilNull, ih]

/-- C28: without a URI list, for every template with a code `%U`, the output
of `handle_codes` is what it makes of the text before the code and nothing of
the text after it: the null pointer appended for the code ends the array that
is joined. For `foo %U --bar` the output is `foo `, and `desktop-exec` called
with the appid alone prints the line cut in this way. -/
theorem handle_codes_null_uri_list (pre post : Str) :
    handle_codes (pre ++ "%U".toList ++ post) none = some (expandText none pre) ∧
      handle_codes "foo %U --bar".toList none = some "foo ".toList ∧
      main sampleDesktopWorld ["desktop-exec".toList, "bar".toList]
        = Outcome.printed "aa-exec -p \"bar_profile\" -- bar \n".toList := by
  refine ⟨?_, by decide, by decide⟩
  obtain ⟨p0, ps, hpost, hxpost⟩ :=
    splitBy_cons_of_not (fun c => c == '%') 'U' post (by decide)
  have hsplit : g_strsplit (pre ++ "%U".toList ++ post)
      = splitBy (fun c => c == '%') pre ++ ('U' :: p0) :: ps := by
    have hform : pre ++ "%U".toList ++ post = pre ++ '%' :: 'U' :: post := by simp
    rw [hform]
    unfold g_strsplit
    rw [if_neg (by simp), splitBy_append_sep _ '%' (by simp), hxpost]
  cases hq : splitBy (fun c => c == '%') pre with
  | nil => exact absurd hq (splitBy_ne_nil _ pre)
  | cons q qs =>
    have hU : expandCode none ('U' :: p0) = [none, some p0] := by
      simp only [expandCode]
      rw [if_neg (by decide), if_neg (by decide), if_neg (by decide), if_pos (by decide)]
    have harr : outarray none (q :: qs ++ ('U' :: p0) :: ps)
        = outarray none (q :: qs) ++ none :: (some p0 :: ps.flatMap (expandCode none)) := by
      simp [outarray, List.flatMap_append, List.flatMap_cons, hU]
    cases htail : qs ++ ('U' :: p0) :: ps with
    | nil => simp at htail
    | cons b rest =>
      have hsplit2 : g_strsplit (pre ++ "%U".toList ++ post) = q :: b :: rest := by
        rw [hsplit, hq, List.cons_append, htail]
      rw [handle_codes_of_pieces _ _ q b rest hsplit2, ← hsplit2, hsplit, hq, harr]
      unfold expandText g_strjoinv
      rw [untilNull_append_none, hq]

/-! ## C29, C30: what is shipped of the environment, and `removeEnv` -/

/-- C30: `removeEnv` removes the first entry of the name and nothing else: the
entries before it, which have other names, and all the entries after it, also
those of the same name, stay in their order; without an entry of the name the
list is unchanged; and the result has no entry of the name exactly when the
name headed at most one entry. -/
theorem removeEnv_first (n : Str) (env : Env) :
    (∀ before v after, env = before ++ (n, v) :: after → (∀ e ∈ before, e.1 ≠ n) →
        removeEnv n env = before ++ after) ∧
      ((∀ e ∈ env, e.1 ≠ n) → removeEnv n env = env) ∧
      ((∀ e ∈ removeEnv n env, e.1 ≠ n) ↔ env.countP (fun e => e.1 == n) ≤ 1) := by
  refine ⟨?_, ?_, ?_⟩
  · intro before v after henv hbefore
    subst henv
    unfold removeEnv
    rw [List.eraseP_append_right _ (by
      intro e he
      simpa using hbefore e he)]
    simp [List.eraseP_cons]
  · intro h
    unfold removeEnv
    apply List.eraseP_of_forall_not
    intro e he
    simpa using h e he
  · have hcount : (removeEnv n env).countP (fun e => e.1 == n)
        = env.countP (fun e => e.1 == n) - 1 := by
      unfold removeEnv
      exact countP_eraseP_self _ env
    constructor
    · intro h
      have h0 : (removeEnv n env).countP (fun e => e.1 == n) = 0 := by
        apply List.countP_eq_zero.mpr
        intro e he
        simpa using h e he
      omega
    · intro h e he heq
      have hpos : 0 < (removeEnv n env).countP (fun e => e.1 == n) :=
        List.countP_pos_iff.mpr ⟨e, he, by simp [heq]⟩
      omega

/-! ## C26: the greedy captures -/

/-- When the star fails, the continuation fails after every run. -/
theorem matchStar_none {α : Type} (p : Char → Bool) (k : Str → Str → Option α)
    (a b acc : Str) (hall : ∀ c ∈ a, p c = true) (h : matchStar p k acc (a ++ b) = none) :
    k (acc ++ a) b = none := by
  cases hk : k (acc ++ a) b with
  | none => rfl
  | some r =>
    have := matchStar_isSome_of_split p k a b acc hall (by rw [hk]; rfl)
    rw [h] at this
    cases this

/-- What the star returns comes from the longest run after which the
continuation accepts. -/
theorem matchStar_sound_max {α : Type} (p : Char → Bool) (k : Str → Str → Option α) (r : α) :
    ∀ (s acc : Str), matchStar p k acc s = some r →
      ∃ a b, s = a ++ b ∧ (∀ c ∈ a, p c = true) ∧ k (acc ++ a) b = some r ∧
        ∀ a1 b1, a1 ≠ [] → b = a1 ++ b1 → (∀ c ∈ a1, p c = true) →
          k (acc ++ a ++ a1) b1 = none := by
  intro s
  induction s with
  | nil =>
    intro acc h
    refine ⟨[], [], rfl, by simp, by simpa [matchStar] using h, ?_⟩
    intro a1 b1 h1 h2 _
    exfalso
    cases a1 with
    | nil => exact h1 rfl
    | cons x xs => simp at h2
  | cons c cs ih =>
    intro acc h
    unfold matchStar at h
    split at h
    · rename_i hc
      split at h
      · rename_i r1 hrec
        cases h
        obtain ⟨a, b, hs, hall, hk, hmax⟩ := ih (acc ++ [c]) hrec
        refine ⟨c :: a, b, by rw [hs]; rfl, ?_, by simpa using hk, ?_⟩
        · intro x hx
          rcases List.mem_cons.mp hx with rfl | hx
          · exact hc
          · exact hall x hx
        · intro a1 b1 h1 h2 h3
          simpa using hmax a1 b1 h1 h2 h3
      · rename_i hrec
        refine ⟨[], c :: cs, rfl, by simp, by simpa using h, ?_⟩
        intro a1 b1 h1 h2 h3
        cases a1 with
        | nil => exact absurd rfl h1
        | cons x xs =>
          have hx : x = c := by
            have := congrArg List.head? h2
            simpa using this.symm
          have hcs : cs = xs ++ b1 := by
            have := congrArg List.tail h2
            simpa using this
          subst hx
          rw [hcs] at hrec
          have := matchStar_none p k xs b1 (acc ++ [x]) (fun y hy => h3 y (by simp [hy])) hrec
          simpa using this
    · rename_i hc
      refine ⟨[], c :: cs, rfl, by simp, by simpa using h, ?_⟩
      intro a1 b1 h1 h2 h3
      exfalso
      cases a1 with
      | nil => exact h1 rfl
      | cons x xs =>
        have hx : x = c := by
          have := congrArg List.head? h2
          simpa using this.symm
        exact hc (hx ▸ h3 x (by simp))

theorem matchAppid_accepts (m1 g2 g3 : Str) (h2 : ∀ c ∈ g2, dotMatches c = true)
    (h3 : ∀ c ∈ g3, digitMatches c = true) :
    (matchAppid m1 (g2 ++ "--".toList ++ g3 ++ ".service".toList)).isSome = true := by
  have hinst : (matchInst m1 g2 (g3 ++ ".service".toList)).isSome = true := by
    unfold matchInst
    apply matchStar_isSome_of_split _ _ g3 _ [] h3
    simp [matchEnd]
  have hassoc : g2 ++ "--".toList ++ g3 ++ ".service".toList
      = g2 ++ ("--".toList ++ (g3 ++ ".service".toList)) := by simp
  rw [hassoc]
  unfold matchAppid
  apply matchStar_isSome_of_split _ _ g2 _ [] h2
  simp only [List.nil_append, matchLit_append]
  exact hinst

theorem append_eq_append_of_length_lt {a b c d : Str} (h : a ++ b = c ++ d)
    (hlen : a.length < c.length) : ∃ a1, a1 ≠ [] ∧ c = a ++ a1 ∧ b = a1 ++ d := by
  rcases List.append_eq_append_iff.mp h with ⟨a1, hc, hb⟩ | ⟨c1, ha, _⟩
  · refine ⟨a1, ?_, hc, hb⟩
    rintro rfl
    rw [hc] at hlen
    simp at hlen
  · rw [ha] at hlen
    simp at hlen

/-- The job that `parseUnit` returns is the longest that any reading of the
name as `ubuntu-app-launch--<job>--<appid>--<instance>.service` gives. -/
theorem parseUnit_longest_job {s : Str} {u : UnitInfo} (h : parseUnit s = some u) (v : UnitInfo)
    (hjob : ∀ c ∈ v.job, dotMatches c = true) (happ : ∀ c ∈ v.appid, dotMatches c = true)
    (hinst : ∀ c ∈ v.inst, digitMatches c = true) (hs : s = unitName v) :
    v.job.length ≤ u.job.length := by
  unfold parseUnit at h
  split at h
  · cases h
  · rename_i r0 hlit
    have hr0 := matchLit_eq_some hlit
    unfold matchJob at h
    obtain ⟨a, b, hab, _, hk, hmax⟩ := matchStar_sound_max _ _ u r0 [] h
    simp only [List.nil_append] at hk hmax
    have hua : u.job = a := by
      split at hk
      · cases hk
      · obtain ⟨g2, g3, _, _, _, hu⟩ := matchAppid_sound hk
        rw [hu]
    rw [hua]
    by_contra hlt
    have hlt2 : a.length < v.job.length := by omega
    have hr0v : a ++ b
        = v.job ++ ("--".toList ++ (v.appid ++ "--".toList ++ v.inst ++ ".service".toList)) := by
      have h1 : "ubuntu-app-launch--".toList ++ (a ++ b)
          = "ubuntu-app-launch--".toList
            ++ (v.job ++ ("--".toList ++ (v.appid ++ "--".toList ++ v.inst
              ++ ".service".toList))) := by
        rw [← hab, ← hr0, hs]
        simp [unitName, List.append_assoc]
      exact List.append_cancel_left h1
    obtain ⟨a1, ha1, hvj, hb⟩ := append_eq_append_of_length_lt hr0v hlt2
    have hnone := hmax a1 _ ha1 hb (fun c hc => hjob c (by rw [hvj]; simp [hc]))
    rw [matchLit_append] at hnone
    simp only [] at hnone
    have hsome := matchAppid_accepts (a ++ a1) v.appid v.inst happ hinst
    rw [hnone] at hsome
    cases hsome

theorem dot_dash : dotMatches '-' = true := by decide

/-- The appid that `parseUnit` returns contains no `--`. -/
theorem parseUnit_appid_no_dashes {s : Str} {u : UnitInfo} (h : parseUnit s = some u) :
    ¬ "--".toList <:+: u.appid := by
  rintro ⟨x, y, hxy⟩
  obtain ⟨hs, hjob, happ, hinst⟩ := parseUnit_sound h
  have hx : ∀ c ∈ x, dotMatches c = true := fun c hc => happ c (by rw [← hxy]; simp [hc])
  have hy : ∀ c ∈ y, dotMatches c = true := fun c hc => happ c (by rw [← hxy]; simp [hc])
  have hle := parseUnit_longest_job h
    { appid := y, job := u.job ++ "--".toList ++ x, inst := u.inst }
    (by
      intro c hc
      simp only [List.mem_append] at hc
      rcases hc with (hc | hc) | hc
      · exact hjob c hc
      · have : c = '-' := by simpa using hc
        rw [this]; exact dot_dash
      · exact hx c hc)
    hy hinst
    (by
      rw [hs]
      simp only [unitName, ← hxy, List.append_assoc])
  simp at hle

/-- The appid that `parseUnit` returns does not begin with `-`. -/
theorem parseUnit_appid_no_leading_dash {s : Str} {u : UnitInfo} (h : parseUnit s = some u) :
    u.appid.head? ≠ some '-' := by
  intro hhead
  obtain ⟨hs, hjob, happ, hinst⟩ := parseUnit_sound h
  cases happid : u.appid with
  | nil => rw [happid] at hhead; cases hhead
  | cons c rest =>
    rw [happid] at hhead
    have hc : c = '-' := by simpa using hhead
    subst hc
    have hle := parseUnit_longest_job h
      { appid := rest, job := u.job ++ ['-'], inst := u.inst }
      (by
        intro c hc
        simp only [List.mem_append, List.mem_singleton] at hc
        rcases hc with hc | hc
        · exact hjob c hc
        · rw [hc]; exact dot_dash)
      (fun c hc => happ c (by rw [happid]; simp [hc])) hinst
      (by
        rw [hs]
        simp [unitName, happid, List.append_assoc])
    simp at hle

/-- C26: for every string that `parseUnit` accepts, the job returned is the
longest that any reading of the string under the pattern gives, the appid
returned contains no `--` and does not begin with `-`, and the instance
returned is the run of decimal digits between the last `-` and `.service`.
Consequently, for a unit whose job and appid have no line terminator,
`parseUnit (unitName u)` returns `u` if and only if the appid of `u` contains no
`--` and does not begin with `-` and its instance is all decimal digits. -/
theorem parseUnit_greedy :
    (∀ (s : Str) (u : UnitInfo), parseUnit s = some u →
        (∀ v : UnitInfo, (∀ c ∈ v.job, dotMatches c = true) →
          (∀ c ∈ v.appid, dotMatches c = true) → (∀ c ∈ v.inst, digitMatches c = true) →
          s = unitName v → v.job.length ≤ u.job.length) ∧
        ¬ "--".toList <:+: u.appid ∧ u.appid.head? ≠ some '-' ∧
        (∀ c ∈ u.inst, digitMatches c = true) ∧
        ∃ body, s = body ++ '-' :: (u.inst ++ ".service".toList)) ∧
      (∀ u : UnitInfo, (∀ c ∈ u.job, dotMatches c = true) →
        (∀ c ∈ u.appid, dotMatches c = true) →
        (parseUnit (unitName u) = some u ↔
          (¬ "--".toList <:+: u.appid ∧ u.appid.head? ≠ some '-' ∧
            ∀ c ∈ u.inst, digitMatches c = true))) := by
  constructor
  · intro s u h
    refine ⟨fun v h1 h2 h3 hs => parseUnit_longest_job h v h1 h2 h3 hs,
      parseUnit_appid_no_dashes h, parseUnit_appid_no_leading_dash h, (parseUnit_sound h).2.2.2, ?_⟩
    refine ⟨"ubuntu-app-launch--".toList ++ u.job ++ "--".toList ++ u.appid ++ ['-'], ?_⟩
    rw [(parseUnit_sound h).1]
    simp [unitName, List.append_assoc]
  · intro u hjob happ
    constructor
    · intro h
      exact ⟨parseUnit_appid_no_dashes h, parseUnit_appid_no_leading_dash h,
        (parseUnit_sound h).2.2.2⟩
    · rintro ⟨hdd, hlead, hinst⟩
      exact parseUnit_unitName_of_unambiguous u hjob happ hinst hdd hlead

/-! ## C22: the running appids -/

theorem strLt_irrefl : ∀ a : Str, strLt a a = false := by
  intro a
  induction a with
  | nil => rfl
  | cons c cs ih => simp [strLt, ih]

theorem strLt_eq_of_not_lt : ∀ a b : Str, strLt a b = false → strLt b a = false → a = b := by
  intro a
  induction a with
  | nil =>
    intro b h1 _
    cases b with
    | nil => rfl
    | cons d ds => simp [strLt] at h1
  | cons c cs ih =>
    intro b h1 h2
    cases b with
    | nil => simp [strLt] at h2
    | cons d ds =>
      simp only [strLt] at h1 h2
      by_cases hcd : c < d
      · simp [hcd] at h1
      · by_cases hdc : d < c
        · simp [hdc] at h2
        · simp only [hcd, hdc, if_false] at h1 h2
          have hceq : c = d := le_antisymm (not_lt.mp hdc) (not_lt.mp hcd)
          rw [hceq, ih ds h1 h2]

theorem strLt_trans : ∀ a b c : Str, strLt a b = true → strLt b c = true → strLt a c = true := by
  intro a
  induction a with
  | nil =>
    intro b c h1 h2
    cases b with
    | nil => simp [strLt] at h1
    | cons y ys =>
      cases c with
      | nil => simp [strLt] at h2
      | cons z zs => rfl
  | cons x xs ih =>
    intro b c h1 h2
    cases b with
    | nil => simp [strLt] at h1
    | cons y ys =>
      cases c with
      | nil => simp [strLt] at h2
      | cons z zs =>
        simp only [strLt] at h1 h2 ⊢
        by_cases hxy : x < y
        · by_cases hyz : y < z
          · simp [lt_trans hxy hyz]
          · by_cases hzy : z < y
            · simp [hyz, hzy] at h2
            · have hyz2 : y = z := le_antisymm (not_lt.mp hzy) (not_lt.mp hyz)
              subst hyz2
              simp [hxy]
        · by_cases hyx : y < x
          · simp [hxy, hyx] at h1
          · have hxy2 : x = y := le_antisymm (not_lt.mp hyx) (not_lt.mp hxy)
            subst hxy2
            simp only [hxy, if_false] at h1
            by_cases hxz : x < z
            · simp [hxz]
            · by_cases hzx : z < x
              · simp [hxz, hzx] at h2
              · simp only [hxz, hzx, if_false] at h2 ⊢
                exact ih ys zs h1 h2

theorem mem_setInsert (x y : Str) : ∀ s : List Str, x ∈ setInsert y s ↔ x = y ∨ x ∈ s := by
  intro s
  induction s with
  | nil => simp [setInsert]
  | cons z zs ih =>
    unfold setInsert
    split
    · simp
    · rename_i h1
      split
      · simp only [List.mem_cons, ih]
        tauto
      · rename_i h2
        have hyz : y = z := strLt_eq_of_not_lt y z (by simpa using h1) (by simpa using h2)
        subst hyz
        simp

theorem pairwise_setInsert (x : Str) :
    ∀ s : List Str, s.Pairwise (fun a b => strLt a b = true) →
      (setInsert x s).Pairwise (fun a b => strLt a b = true) := by
  intro s
  induction s with
  | nil => intro _; simp [setInsert]
  | cons y ys ih =>
    intro hs
    obtain ⟨hy, hys⟩ := List.pairwise_cons.mp hs
    unfold setInsert
    split
    · rename_i hxy
      refine List.pairwise_cons.mpr ⟨?_, hs⟩
      intro z hz
      rcases List.mem_cons.mp hz with rfl | hz
      · exact hxy
      · exact strLt_trans x y z hxy (hy z hz)
    · split
      · rename_i hyx
        refine List.pairwise_cons.mpr ⟨?_, ih hys⟩
        intro z hz
        rcases (mem_setInsert z x ys).mp hz with rfl | hz
        · exact hyx
        · exact hy z hz
      · exact hs

/-- C22: for every unit map and every list of jobs, `runningAppIds` returns
the appids of the keys whose job is in the list and nothing else, in strictly
ascending order of `std::string`, so that no appid is returned twice. -/
theorem runningAppIds_spec (m : UnitMap) (allJobs : List Str) :
    (∀ x, x ∈ runningAppIds m allJobs ↔ ∃ e ∈ m, e.1.job ∈ allJobs ∧ e.1.appid = x) ∧
      (runningAppIds m allJobs).Pairwise (fun a b => strLt a b = true) ∧
      (runningAppIds m allJobs).Nodup := by
  have hgen : ∀ (m : UnitMap) (acc : List Str), acc.Pairwise (fun a b => strLt a b = true) →
      (∀ x, x ∈ m.foldl (fun appids unit =>
          if allJobs.contains unit.1.job then setInsert unit.1.appid appids else appids) acc ↔
        x ∈ acc ∨ ∃ e ∈ m, e.1.job ∈ allJobs ∧ e.1.appid = x) ∧
      (m.foldl (fun appids unit =>
          if allJobs.contains unit.1.job then setInsert unit.1.appid appids else appids)
        acc).Pairwise (fun a b => strLt a b = true) := by
    intro m
    induction m with
    | nil => intro acc hacc; simp [hacc]
    | cons e es ih =>
      intro acc hacc
      rw [List.foldl_cons]
      by_cases hjob : allJobs.contains e.1.job = true
      · rw [if_pos hjob]
        obtain ⟨hmem, hpw⟩ := ih (setInsert e.1.appid acc) (pairwise_setInsert _ acc hacc)
        refine ⟨?_, hpw⟩
        intro x
        rw [hmem, mem_setInsert]
        have hj : e.1.job ∈ allJobs := by simpa using hjob
        constructor
        · rintro ((hx | hx) | ⟨e1, he1, h1⟩)
          · exact Or.inr ⟨e, by simp, hj, hx.symm⟩
          · exact Or.inl hx
          · exact Or.inr ⟨e1, by simp [he1], h1⟩
        · rintro (hx | ⟨e1, he1, h1, h2⟩)
          · exact Or.inl (Or.inr hx)
          · rcases List.mem_cons.mp he1 with rfl | he1
            · exact Or.inl (Or.inl h2.symm)
            · exact Or.inr ⟨e1, he1, h1, h2⟩
      · rw [if_neg hjob]
        obtain ⟨hmem, hpw⟩ := ih acc hacc
        refine ⟨?_, hpw⟩
        intro x
        rw [hmem]
        have hj : e.1.job ∉ allJobs := by simpa using hjob
        constructor
        · rintro (hx | ⟨e1, he1, h1⟩)
          · exact Or.inl hx
          · exact Or.inr ⟨e1, by simp [he1], h1⟩
        · rintro (hx | ⟨e1, he1, h1, h2⟩)
          · exact Or.inl hx
          · rcases List.mem_cons.mp he1 with rfl | he1
            · exact absurd h1 hj
            · exact Or.inr ⟨e1, he1, h1, h2⟩
  obtain ⟨hmem, hpw⟩ := hgen m [] List.Pairwise.nil
  refine ⟨?_, hpw, ?_⟩
  · intro x
    have := hmem x
    simpa [runningAppIds] using this
  · apply List.Pairwise.imp _ hpw
    intro a b hab heq
    rw [heq, strLt_irrefl] at hab
    cases hab

/-! ## C23: the pids of a unit -/

theorem unitPath_of_absent (lt : UnitInfo → UnitInfo → Bool) (m : UnitMap) (info : UnitInfo)
    (h : info ∉ m.map Prod.fst) :
    unitPath lt m info = ([], m.takeWhile (fun e => lt e.1 info)
      ++ (info, none) :: m.dropWhile (fun e => lt e.1 info)) := by
  unfold unitPath mapIndex
  rw [find?_key_none h]

/-- C25, counterexample: after a query of the unit path of the sample unit on
the empty map, the key is in the map with null data; an announcement of the
sample unit with the job path `/` is then rejected with the job-path error, not
as a duplicate. -/
theorem unitPath_then_root_path_counterexample :
    unitPath (fun _ _ => false) [] sampleUnitInfo = ([], [(sampleUnitInfo, none)]) ∧
      unitNew (fun _ _ => false) (fun _ => some (some "/unit/1".toList))
          (unitPath (fun _ _ => false) [] sampleUnitInfo).2 sampleUnitName "/".toList
        = (Except.error UnitError.jobPathRoot, [(sampleUnitInfo, none)]) := by
  decide

/-- C25, as amended: for a `UnitInfo` that is not a key of the unit map,
`unitPath` returns the empty path, `unitPrimaryPid` returns 0 and `unitPids`
returns the empty list, and each leaves the key in the map with null data, the
other keys holding what they held; the map is changed, and a later `unitNew`
for the name of that unit is rejected and changes nothing, as a duplicate when
its job path is not `/` and with the job-path error when it is. -/
theorem unitPath_inserts_null (lt : UnitInfo → UnitInfo → Bool) (m : UnitMap) (info : UnitInfo)
    (habsent : info ∉ m.map Prod.fst) :
    (unitPath lt m info).1 = [] ∧
      mapFind (unitPath lt m info).2 info = some none ∧
      (∀ k, k ≠ info → mapFind (unitPath lt m info).2 k = mapFind m k) ∧
      (unitPath lt m info).2 ≠ m ∧
      (∀ getMainPID, unitPrimaryPid lt getMainPID m info.appid info.job info.inst
        = (some 0, (unitPath lt m info).2)) ∧
      (∀ cgroup_root getControlGroup g_build_filename g_file_get_contents,
        unitPids lt cgroup_root getControlGroup g_build_filename g_file_get_contents m info.appid
          info.job info.inst = (some [], (unitPath lt m info).2)) ∧
      (∀ getUnit name path, parseUnit name = some info →
        unitNew lt getUnit (unitPath lt m info).2 name path =
          (Except.error (if path = "/".toList then UnitError.jobPathRoot else UnitError.duplicate),
            (unitPath lt m info).2)) := by
  have hins := mapInsert_of_absent lt info none m habsent
  have hpath := unitPath_of_absent lt m info habsent
  have hself := mapFind_mapInsert_self hins
  have hfst : (unitPath lt m info).1 = [] := by rw [hpath]
  have hsnd : (unitPath lt m info).2 = m.takeWhile (fun e => lt e.1 info)
      ++ (info, none) :: m.dropWhile (fun e => lt e.1 info) := by rw [hpath]
  refine ⟨hfst, by rw [hsnd]; exact hself, ?_, ?_, ?_, ?_, ?_⟩
  · intro k hk
    rw [hsnd]
    exact mapFind_mapInsert_other hins k hk
  · intro heq
    rw [hsnd] at heq
    have hnone : mapFind m info = none := by
      unfold mapFind
      rw [find?_key_none habsent]
      rfl
    rw [heq, hnone] at hself
    cases hself
  · intro getMainPID
    show (if (unitPath lt m info).1.isEmpty then (some 0, (unitPath lt m info).2)
      else (getMainPID (unitPath lt m info).1, (unitPath lt m info).2)) = _
    rw [hfst]
    rfl
  · intro cgroup_root getControlGroup g_build_filename g_file_get_contents
    have : unitPids lt cgroup_root getControlGroup g_build_filename g_file_get_contents m
        info.appid info.job info.inst
        = (if (unitPath lt m info).1.isEmpty then (some [], (unitPath lt m info).2)
          else
            match getControlGroup (unitPath lt m info).1 with
            | none => (none, (unitPath lt m info).2)
            | some reply =>
              match g_file_get_contents (g_build_filename cgroup_root
                  (match reply with
                    | some group => group
                    | none => []) "tasks".toList) with
              | none => (some [], (unitPath lt m info).2)
              | some pidstr =>
                (some ((g_strsplit_char pidstr '\n').filterMap (fun pidline =>
                  if pidline.head? != some '\n' then
                    if atoi pidline != 0 then some (atoi pidline) else none
                  else none)), (unitPath lt m info).2)) := rfl
    rw [this, hfst]
    rfl
  · intro getUnit name path hparse
    apply unitNew_of_present lt getUnit _ name path info hparse
    have hperm := mapInsert_keys_perm hins
    rw [hsnd]
    exact hperm.symm.subset (by simp)

/-- C25, witness: a query about the sample unit on the empty map. -/
theorem unitPath_inserts_null_witness :
    (unitPath (fun _ _ => false) [] sampleUnitInfo).1 = [] ∧
      mapFind (unitPath (fun _ _ => false) [] sampleUnitInfo).2 sampleUnitInfo = some none ∧
      (∀ k, k ≠ sampleUnitInfo →
        mapFind (unitPath (fun _ _ => false) [] sampleUnitInfo).2 k = mapFind [] k) ∧
      (unitPath (fun _ _ => false) [] sampleUnitInfo).2 ≠ [] ∧
      (∀ getMainPID, unitPrimaryPid (fun _ _ => false) getMainPID [] sampleUnitInfo.appid
          sampleUnitInfo.job sampleUnitInfo.inst
        = (some 0, (unitPath (fun _ _ => false) [] sampleUnitInfo).2)) ∧
      (∀ cgroup_root getControlGroup g_build_filename g_file_get_contents,
        unitPids (fun _ _ => false) cgroup_root getControlGroup g_build_filename
          g_file_get_contents [] sampleUnitInfo.appid sampleUnitInfo.job sampleUnitInfo.inst
          = (some [], (unitPath (fun _ _ => false) [] sampleUnitInfo).2)) ∧
      (∀ getUnit name path, parseUnit name = some sampleUnitInfo →
        unitNew (fun _ _ => false) getUnit (unitPath (fun _ _ => false) [] sampleUnitInfo).2
            name path =
          (Except.error (if path = "/".toList then UnitError.jobPathRoot else UnitError.duplicate),
            (unitPath (fun _ _ => false) [] sampleUnitInfo).2)) :=
  unitPath_inserts_null (fun _ _ => false) [] sampleUnitInfo (by decide)

theorem unitNew_of_getUnit_error (lt : UnitInfo → UnitInfo → Bool)
    (getUnit : Str → Option (Option Str)) (m : UnitMap) (name path : Str) (info : UnitInfo)
    (hpath : path ≠ "/".toList) (hparse : parseUnit name = some info)
    (habsent : info ∉ m.map Prod.fst) (hget : getUnit name = none) :
    unitNew lt getUnit m name path =
      (Except.error UnitError.getUnitFailed,
        m.takeWhile (fun e => lt e.1 info)
          ++ (info, some { jobpath := path, unitpath := [] })
            :: m.dropWhile (fun e => lt e.1 info)) := by
  have hb : (path == "/".toList) = false := by simpa using hpath
  unfold unitNew
  simp only [hb, hparse, mapInsert_of_absent lt info _ m habsent, hget]
  rfl

theorem onUnitNew_of_error (lt : UnitInfo → UnitInfo → Bool)
    (getUnit : Str → Option (Option Str)) (m m1 : UnitMap) (name path : Str) (e : UnitError)
    (h : unitNew lt getUnit m name path = (Except.error e, m1)) :
    onUnitNew lt getUnit m name path = (m1, []) := by
  unfold onUnitNew
  cases hparse : parseUnit name with
  | none =>
    have h2 : unitNew lt getUnit m name path
        = (Except.error (if path = "/".toList then UnitError.jobPathRoot
            else UnitError.unparsable), m) := by
      unfold unitNew
      by_cases hp : path = "/".toList
      · simp [hp]
      · have hb : (path == "/".toList) = false := by simpa using hp
        simp only [hb, hparse, if_neg hp]
        rfl
    rw [h2] at h
    have hm : m = m1 := (Prod.mk.inj h).2
    rw [hm]
  | some info =>
    simp only [h]

/-- C27, counterexample: after an announcement of the sample unit whose
`GetUnit` call failed, the key is in the map with an empty unit path; a later
announcement of the same name with the job path `/` fails with the job-path
error, not as a duplicate. -/
theorem unitNew_stuck_then_root_path_counterexample :
    unitNew (fun _ _ => false) (fun _ => none) [] sampleUnitName "/job/1".toList
        = (Except.error UnitError.getUnitFailed, sampleStuckMap) ∧
      unitNew (fun _ _ => false) (fun _ => some (some "/unit/1".toList)) sampleStuckMap
          sampleUnitName "/".toList
        = (Except.error UnitError.jobPathRoot, sampleStuckMap) ∧
      (unitNew (fun _ _ => false) (fun _ => some (some "/unit/1".toList)) sampleStuckMap
          sampleUnitName "/".toList).1 ≠ Except.error UnitError.duplicate := by
  decide

/-- C27, as amended: when `unitNew` passes the job-path check, the parse and
the duplicate check but the `GetUnit` call fails, it raises the `GetUnit` error
and the key it inserted stays in the map, holding the job path and an empty
unit path, the other keys holding what they held, so that the map is changed;
the `UnitNew` handler emits no `jobStarted`; and a later `unitNew` for the same
name fails and changes nothing, whatever `GetUnit` then answers, as a duplicate
when its job path is not `/` and with the job-path error when it is, again with
no `jobStarted` from the handler. -/
theorem unitNew_not_atomic (lt : UnitInfo → UnitInfo → Bool)
    (getUnit : Str → Option (Option Str)) (m : UnitMap) (name path : Str) (info : UnitInfo)
    (hpath : path ≠ "/".toList) (hparse : parseUnit name = some info)
    (habsent : info ∉ m.map Prod.fst) (hget : getUnit name = none) :
    (unitNew lt getUnit m name path).1 = Except.error UnitError.getUnitFailed ∧
      mapFind (unitNew lt getUnit m name path).2 info
        = some (some { jobpath := path, unitpath := [] }) ∧
      (∀ k, k ≠ info → mapFind (unitNew lt getUnit m name path).2 k = mapFind m k) ∧
      (unitNew lt getUnit m name path).2 ≠ m ∧
      onUnitNew lt getUnit m name path = ((unitNew lt getUnit m name path).2, []) ∧
      (∀ getUnit2 path2,
        unitNew lt getUnit2 (unitNew lt getUnit m name path).2 name path2 =
            (Except.error
                (if path2 = "/".toList then UnitError.jobPathRoot else UnitError.duplicate),
              (unitNew lt getUnit m name path).2) ∧
          onUnitNew lt getUnit2 (unitNew lt getUnit m name path).2 name path2 =
            ((unitNew lt getUnit m name path).2, [])) := by
  have hins := mapInsert_of_absent lt info (some { jobpath := path, unitpath := [] }) m habsent
  have hnew := unitNew_of_getUnit_error lt getUnit m name path info hpath hparse habsent hget
  have hself := mapFind_mapInsert_self hins
  rw [hnew]
  refine ⟨rfl, hself, fun k hk => mapFind_mapInsert_other hins k hk, ?_,
    onUnitNew_of_error lt getUnit m _ name path _ hnew, ?_⟩
  · intro heq
    have hnone : mapFind m info = none := by
      unfold mapFind
      rw [find?_key_none habsent]
      rfl
    simp only at heq
    rw [heq, hnone] at hself
    cases hself
  · intro getUnit2 path2
    have hkey : info ∈ (m.takeWhile (fun e => lt e.1 info)
        ++ (info, some { jobpath := path, unitpath := [] })
          :: m.dropWhile (fun e => lt e.1 info)).map Prod.fst :=
      (mapInsert_keys_perm hins).symm.subset (by simp)
    have h2 := unitNew_of_present lt getUnit2 _ name path2 info hparse hkey
    exact ⟨h2, onUnitNew_of_error lt getUnit2 _ _ name path2 _ h2⟩

/-- C27, witness: the announcement of the sample unit on the empty map, with a
failing `GetUnit` call. -/
theorem unitNew_not_atomic_witness :
    "/job/1".toList ≠ "/".toList ∧ parseUnit sampleUnitName = some sampleUnitInfo ∧
      sampleUnitInfo ∉ ([] : UnitMap).map Prod.fst ∧
      (unitNew (fun _ _ => false) (fun _ => none) [] sampleUnitName "/job/1".toList).1
        = Except.error UnitError.getUnitFailed ∧
      mapFind (unitNew (fun _ _ => false) (fun _ => none) [] sampleUnitName "/job/1".toList).2
          sampleUnitInfo
        = some (some { jobpath := "/job/1".toList, unitpath := [] }) :=
  ⟨by decide, by decide, by decide,
    (unitNew_not_atomic (fun _ _ => false) (fun _ => none) [] sampleUnitName "/job/1".toList
      sampleUnitInfo (by decide) (by decide) (by decide) rfl).1,
    (unitNew_not_atomic (fun _ _ => false) (fun _ => none) [] sampleUnitName "/job/1".toList
      sampleUnitInfo (by decide) (by decide) (by decide) rfl).2.1⟩

end UbuntuAppLaunch
